import Mathlib

/-
  Verification of the attendance-tracker core (attendance-alexa).

  Shallow embedding of the JavaScript source:
  * calendar dates are a `YMD` structure; the zero-padded ISO strings
    `YYYY-MM-DD` used as keys in the source correspond bijectively to `YMD`
    values (for four-digit years), and lexicographic string comparison on
    them agrees with the lexicographic order on `(y, m, d)`;
  * the per-user attendance document of `src/api/alexa.js` is a `UserData`
    structure; JavaScript objects keyed by date are association lists
    (lookup is the first matching entry);
  * the per-day document store of `src/unnamed/part_002` is an association
    list keyed by `(uid, date)`; one Firestore transaction is one atomic
    step on that list;
  * wall-clock instants are epoch milliseconds (`Int`), as in JS `Date`.
-/

/-! ### Calendar dates (embedding of JS `Date` calendar arithmetic) -/

/-- A calendar date, as denoted by a `YYYY-MM-DD` string in the source. -/
structure YMD where
  y : Nat
  m : Nat
  d : Nat
deriving DecidableEq, Repr

/-- Lexicographic order on dates; equals ISO-string `<=` for padded strings. -/
def ymdLe (a b : YMD) : Bool :=
  a.y < b.y || (a.y = b.y && (a.m < b.m || (a.m = b.m && a.d ≤ b.d)))

/-- Strict lexicographic order on dates; equals ISO-string `<`. -/
def ymdLt (a b : YMD) : Bool :=
  a.y < b.y || (a.y = b.y && (a.m < b.m || (a.m = b.m && a.d < b.d)))

theorem ymdLe_iff (a b : YMD) : ymdLe a b = true ↔
    (a.y < b.y ∨ (a.y = b.y ∧ (a.m < b.m ∨ (a.m = b.m ∧ a.d ≤ b.d)))) := by
  simp [ymdLe]

theorem ymdLt_iff (a b : YMD) : ymdLt a b = true ↔
    (a.y < b.y ∨ (a.y = b.y ∧ (a.m < b.m ∨ (a.m = b.m ∧ a.d < b.d)))) := by
  simp [ymdLt]

theorem ymdLt_eq_not_ymdLe (a b : YMD) : ymdLt a b = !ymdLe b a := by
  have h1 := ymdLe_iff b a
  have h2 := ymdLt_iff a b
  cases hb : ymdLe b a <;> cases hc : ymdLt a b <;> simp_all <;> omega

theorem ymdLe_total (a b : YMD) : ymdLe a b = true ∨ ymdLe b a = true := by
  rw [ymdLe_iff, ymdLe_iff]
  omega

theorem ymdLe_trans {a b c : YMD} (h1 : ymdLe a b = true) (h2 : ymdLe b c = true) :
    ymdLe a c = true := by
  rw [ymdLe_iff] at h1 h2 ⊢
  omega

/-- Leap-year rule of the (proleptic) Gregorian calendar used by JS `Date`. -/
def isLeapYear (y : Nat) : Bool :=
  (y % 4 = 0 && y % 100 ≠ 0) || y % 400 = 0

/-- Number of days of month `m` (1..12) of year `y`; embeds the source
expression `new Date(year, month, 0).getDate()`. -/
def daysInMonth (y m : Nat) : Nat :=
  if m = 2 then (if isLeapYear y then 29 else 28)
  else if m = 4 || m = 6 || m = 9 || m = 11 then 30
  else 31

/-- Calendar successor of a date; embeds the source statement
`currentDate.setDate(currentDate.getDate() + 1)` (with month/year rollover). -/
def nextDay (x : YMD) : YMD :=
  if x.d < daysInMonth x.y x.m then ⟨x.y, x.m, x.d + 1⟩
  else if x.m < 12 then ⟨x.y, x.m + 1, 1⟩
  else ⟨x.y + 1, 1, 1⟩

/-- Serial day number of a civil date (1970-01-01 is day 0); the standard
days-from-civil algorithm, used to embed the weekday computation of
`new Date(dateStr).getDay()`. -/
def daysFromCivil (x : YMD) : Int :=
  let yy : Int := if x.m ≤ 2 then (x.y : Int) - 1 else (x.y : Int)
  let era : Int := Int.fdiv yy 400
  let yoe : Int := yy - era * 400
  let mp : Int := if 2 < x.m then (x.m : Int) - 3 else (x.m : Int) + 9
  let doy : Int := (153 * mp + 2) / 5 + (x.d : Int) - 1
  let doe : Int := yoe * 365 + yoe / 4 - yoe / 100 + doy
  era * 146097 + doe - 719468

/-- Civil date of a serial day number; the standard civil-from-days
algorithm, used to embed the `getUTCFullYear/Month/Date` getters. -/
def civilFromDays (z : Int) : YMD :=
  let z2 : Int := z + 719468
  let era : Int := Int.fdiv z2 146097
  let doe : Int := z2 - era * 146097
  let yoe : Int := (doe - doe / 1460 + doe / 36524 - doe / 146096) / 365
  let yy : Int := yoe + era * 400
  let doy : Int := doe - (365 * yoe + yoe / 4 - yoe / 100)
  let mp : Int := (5 * doy + 2) / 153
  let dd : Int := doy - (153 * mp + 2) / 5 + 1
  let mm : Int := if mp < 10 then mp + 3 else mp - 9
  ⟨(if mm ≤ 2 then yy + 1 else yy).toNat, mm.toNat, dd.toNat⟩

example : daysFromCivil ⟨1970, 1, 1⟩ = 0 := by decide
example : civilFromDays 0 = ⟨1970, 1, 1⟩ := by decide
example : daysFromCivil ⟨2024, 6, 3⟩ = 19877 := by decide
example : civilFromDays 19877 = ⟨2024, 6, 3⟩ := by decide
example : civilFromDays (-1) = ⟨1969, 12, 31⟩ := by decide

/-- Weekday of a date, 0 = Sunday .. 6 = Saturday; embeds
`new Date(dateStr).getDay()` (the string parses as UTC midnight). -/
def jsGetDay (x : YMD) : Nat :=
  ((daysFromCivil x + 4) % 7).toNat

example : jsGetDay ⟨2024, 6, 2⟩ = 0 := by decide
example : jsGetDay ⟨2024, 6, 3⟩ = 1 := by decide
example : jsGetDay ⟨1970, 1, 1⟩ = 4 := by decide

/-! ### Clock (part_000 `getLocalDate`/`getFormattedDate`,
     part_002 `localNowWithOffset`/`localYMD`) -/

/-- Embeds `new Date(now.getTime() + timezoneOffset * 60000)`: the shifted
instant, in epoch milliseconds. -/
def localNowWithOffset (nowUtcMs offsetMinutes : Int) : Int :=
  nowUtcMs + offsetMinutes * 60000

/-- Calendar date read off an epoch-millisecond instant through the UTC
getters (`getUTCFullYear`, `getUTCMonth`, `getUTCDate`). -/
def msToUTCDate (ms : Int) : YMD :=
  civilFromDays (Int.fdiv ms 86400000)

/-- Embeds `localYMD()` of part_002 (equally `getFormattedDate()` of
part_000): apply the configured constant offset, then read the UTC date. -/
def localYMD (nowUtcMs offsetMinutes : Int) : YMD :=
  msToUTCDate (localNowWithOffset nowUtcMs offsetMinutes)

example : localYMD 0 330 = ⟨1970, 1, 1⟩ := by decide
example : localYMD 86100000 330 = ⟨1970, 1, 2⟩ := by decide

/-! ### Data model of the per-user attendance document (src/api/alexa.js) -/

/-- One entry of the `holidays` array: `{ date, name }`. -/
structure Holiday where
  date : YMD
  name : String
deriving DecidableEq, Repr

/-- One entry of the `sessions` array of `src/api/alexa.js`.  `startDate`
and `endDate` are `Option` because the stored fields may be `null`;
`createdAt` is an abstract timestamp (ordered by `Nat`). -/
structure Session where
  name : String
  code : String
  startDate : Option YMD
  endDate : Option YMD
  createdAt : Nat
  isSelected : Bool
deriving DecidableEq, Repr

/-- The per-user document read by `getUserData`.  The JS object
`records` (date string to boolean) is an association list; lookup is the
first matching entry, and the source keeps at most one entry per date. -/
structure UserData where
  records : List (YMD × Bool) := []
  holidays : List Holiday := []
  notEnrolled : List YMD := []
  weeklyDaysOff : List Nat := []
  sessions : List Session := []
deriving DecidableEq, Repr

/-- Lookup of `records[date]` in the JS object. -/
def recLookup (records : List (YMD × Bool)) (date : YMD) : Option Bool :=
  (records.find? (fun p => p.1 = date)).map (fun p => p.2)

/-- Result values of `getDayStatus`: either a bare status string or the
object `{ status: "holiday", name }`. -/
inductive JSDayStatus where
  | present
  | absent
  | holidayObj (name : String)
  | notEnrolled
deriving DecidableEq, Repr

/-- Embeds `getDayStatus(uid, date)` of src/api/alexa.js (lines 497-514):
check `records`, then `holidays`, then `notEnrolled`, else `null`. -/
def getDayStatus (u : UserData) (date : YMD) : Option JSDayStatus :=
  match recLookup u.records date with
  | some b => some (if b then .present else .absent)
  | none =>
    if u.holidays.any (fun h => h.date = date) then
      match u.holidays.find? (fun h => h.date = date) with
      | some h => some (.holidayObj h.name)
      | none => none
    else if u.notEnrolled.contains date then some .notEnrolled
    else none

/-- The four status values accepted by `setDayStatus`. -/
inductive Status where
  | present
  | absent
  | holiday
  | notEnrolled
deriving DecidableEq, Repr

/-- The `extraData` argument of `setDayStatus`. -/
structure ExtraData where
  holidayName : Option String := none
deriving DecidableEq, Repr

/-- One entry of the stored `records` map after a merge-mode write: a key
present in the written update object takes the written value; a key absent
from it keeps its stored value (merge-mode `set` never deletes map keys). -/
def mergeEntry (updates : List (YMD × Bool)) (p : YMD × Bool) : YMD × Bool :=
  match recLookup updates p.1 with
  | some v => (p.1, v)
  | none => p

/-- Firestore deep-merge of the `records` map field under
`docRef.set(updates, { merge: true })` (src/api/alexa.js line 493): every
stored key is kept (updated where the write provides a value) and the keys
the write adds are appended. -/
def mergeRecords (stored updates : List (YMD × Bool)) : List (YMD × Bool) :=
  stored.map (mergeEntry updates)
    ++ updates.filter (fun q => !stored.any (fun p => p.1 = q.1))

/-- Embeds `updateUserData(uid, updates)` (src/api/alexa.js lines 486-494)
for the field set written by `setDayStatus`: the write is
`docRef.set(updates, { merge: true })`, which deep-merges the `records`
map field — it never deletes a date key absent from the written object —
and replaces the `holidays` and `notEnrolled` array fields wholesale. -/
def updateUserDataDayFields (u : UserData) (records : List (YMD × Bool))
    (holidays : List Holiday) (notEnrolled : List YMD) : UserData :=
  { u with records := mergeRecords u.records records,
           holidays := holidays, notEnrolled := notEnrolled }

/-- Embeds `setDayStatus(uid, date, status, extraData)` of src/api/alexa.js
(lines 517-546): build the local objects with the date removed from all
three representations and inserted into the one matching the status, then
persist them through the merge-mode `updateUserData` write.  Because the
merge keeps stored map keys, the local `delete records[date]` does not
persist: a prior present/absent entry survives a holiday or not-enrolled
write. -/
def setDayStatus (u : UserData) (date : YMD) (status : Status)
    (extra : ExtraData := {}) : UserData :=
  let records := u.records.filter (fun p => p.1 ≠ date)
  let holidays := u.holidays.filter (fun h => h.date ≠ date)
  let notEnrolled := u.notEnrolled.filter (fun d => d ≠ date)
  match status with
  | .present =>
    updateUserDataDayFields u (records ++ [(date, true)]) holidays notEnrolled
  | .absent =>
    updateUserDataDayFields u (records ++ [(date, false)]) holidays notEnrolled
  | .holiday =>
    updateUserDataDayFields u records
      (holidays ++ [⟨date, extra.holidayName.getD "Holiday"⟩]) notEnrolled
  | .notEnrolled =>
    updateUserDataDayFields u records holidays (notEnrolled ++ [date])

/-- Embeds `isNonWorkingDay(dateStr, userData)` of src/api/alexa.js
(lines 549-559). -/
def isNonWorkingDay (date : YMD) (u : UserData) : Bool :=
  let dayOfWeek := jsGetDay date
  if dayOfWeek = 0 then true
  else if u.weeklyDaysOff.contains dayOfWeek then true
  else false

/-! ### Monthly aggregation (src/api/alexa.js `calculateMonthlyAttendance`) -/

/-- Exact-rational embedding of `Math.round((p / t) * 100)` for naturals
`p`, `t` with `t > 0`: round half up of `100 * p / t`. -/
def jsRound100 (p t : Nat) : Nat :=
  (200 * p + t) / (2 * t)

/-- Loop body of `calculateMonthlyAttendance`; the accumulator is
`(presentDays, totalWorkingDays)`. -/
def monthlyStep (u : UserData) (today : YMD) (year month : Nat)
    (acc : Nat × Nat) (day : Nat) : Nat × Nat :=
  let date : YMD := ⟨year, month, day⟩
  if ymdLt today date then acc
  else if isNonWorkingDay date u then acc
  else if u.holidays.any (fun h => h.date = date) then acc
  else if u.notEnrolled.contains date then acc
  else
    (acc.1 + (if recLookup u.records date = some true then 1 else 0), acc.2 + 1)

/-- Embeds `calculateMonthlyAttendance(uid, yearMonth)` of src/api/alexa.js
(lines 562-591); `today` abstracts `getFormattedDate()` (the string
comparison `dateStr > today` is `ymdLt today date`). -/
def calculateMonthlyAttendance (u : UserData) (year month : Nat)
    (today : YMD) : Nat :=
  let days := List.range' 1 (daysInMonth year month)
  let r := days.foldl (monthlyStep u today year month) (0, 0)
  if 0 < r.2 then jsRound100 r.1 r.2 else 0

/-! ### Session window resolution and walk
     (src/api/alexa.js `calculateSessionAttendance`, lines 594-673) -/

/-- ASCII lower-casing of one character; embeds JS `toLowerCase()` on the
alphabet actually used by session names and codes. -/
def lowerChar (c : Char) : Char :=
  if 'A' ≤ c ∧ c ≤ 'Z' then Char.ofNat (c.toNat + 32) else c

/-- ASCII lower-casing of a string. -/
def lowerStr (s : String) : String :=
  ⟨s.data.map lowerChar⟩

/-- The window resolved by the first part of `calculateSessionAttendance`
(lines 597-626): a start date, an end date and the spoken session label. -/
structure ResolvedWindow where
  startDate : Option YMD
  endDate : Option YMD
  sessionUsed : String
deriving DecidableEq, Repr

/-- First day of the current year, `${currentYear}-01-01`. -/
def yearStart (year : Nat) : YMD := ⟨year, 1, 1⟩

/-- Last day of the current year, `${currentYear}-12-31`. -/
def yearEnd (year : Nat) : YMD := ⟨year, 12, 31⟩

/-- Embeds the window-resolution part of `calculateSessionAttendance`
(src/api/alexa.js lines 597-626).  Step one takes the session with
`isSelected === true` (with `endDate || today`); step two, only when start
or end is still unset and a `sessionName` argument was given, looks the
name up (case-insensitive name, or exact code); step three falls back to
the current calendar year. -/
def resolveSessionWindow (sessions : List Session) (sessionName : Option String)
    (today : YMD) (currentYear : Nat) : ResolvedWindow :=
  let step1 : Option YMD × Option YMD × String :=
    match sessions.find? (fun s => s.isSelected) with
    | some s =>
      (s.startDate, some (s.endDate.getD today),
       if s.name = "" then "current session" else s.name)
    | none => (none, none, "current session")
  let step2 : Option YMD × Option YMD × String :=
    if step1.1.isNone || step1.2.1.isNone then
      match sessionName with
      | some nm =>
        (match sessions.find? (fun s =>
            lowerStr s.name = lowerStr nm || s.code = nm) with
         | some s => (s.startDate, s.endDate, s.name)
         | none => step1)
      | none => step1
    else step1
  if step2.1.isNone || step2.2.1.isNone then
    ⟨some (yearStart currentYear), some (yearEnd currentYear), "current year"⟩
  else ⟨step2.1, step2.2.1, step2.2.2⟩

/-- The smaller of two dates in the ISO-string order. -/
def minYMD (a b : YMD) : YMD :=
  if ymdLe a b then a else b

/-- Embeds the day-walk of `calculateSessionAttendance` (lines 635-663):
`while (currentDate <= end && currentDate <= today)`, per day the same
skip conditions as the monthly loop; returns
`(presentDays, totalWorkingDays)`.  `fuel` bounds the recursion and is
irrelevant whenever it exceeds the length of the walked range. -/
def sessionWalk (u : UserData) (endD today : YMD) : Nat → YMD → Nat × Nat
  | 0, _ => (0, 0)
  | fuel + 1, cur =>
    if ymdLe cur endD && ymdLe cur today then
      let rest := sessionWalk u endD today fuel (nextDay cur)
      if isNonWorkingDay cur u then rest
      else if u.holidays.any (fun h => h.date = cur) then rest
      else if u.notEnrolled.contains cur then rest
      else (rest.1 + (if recLookup u.records cur = some true then 1 else 0),
            rest.2 + 1)
    else (0, 0)

/-- Fuel sufficient for the walk from `startD`: one more than the length of
the serial-day interval up to `min endD today`. -/
def walkFuel (startD endD today : YMD) : Nat :=
  (daysFromCivil (minYMD endD today) - daysFromCivil startD).toNat + 1

/-- Result record of `calculateSessionAttendance`. -/
structure SessionResult where
  percentage : Nat
  sessionName : String
  presentDays : Nat
  totalWorkingDays : Nat
deriving DecidableEq, Repr

/-- Embeds `calculateSessionAttendance(uid, sessionName)` of
src/api/alexa.js (lines 594-673). -/
def calculateSessionAttendance (u : UserData) (sessionName : Option String)
    (today : YMD) (currentYear : Nat) : SessionResult :=
  let w := resolveSessionWindow u.sessions sessionName today currentYear
  let startD := w.startDate.getD today
  let endD := w.endDate.getD today
  let r := sessionWalk u endD today (walkFuel startD endD today) startD
  let percentage := if 0 < r.2 then jsRound100 r.1 r.2 else 0
  ⟨percentage, w.sessionUsed, r.1, r.2⟩

/-! ### Session registry operations (src/api/alexa.js, lines 676-766) -/

/-- Embeds `setAlexaPresetSession(uid, sessionIdentifier)` (lines 676-696):
find by exact code or case-insensitive name, then rewrite the whole array
with `isSelected: session.code === found.code`.  Returns the new document
and the success flag. -/
def setAlexaPresetSession (u : UserData) (identifier : String) :
    UserData × Bool :=
  if u.sessions.isEmpty then (u, false)
  else
    match u.sessions.find? (fun s =>
        s.code = identifier ||
        (s.name ≠ "" && lowerStr s.name = lowerStr identifier)) with
    | none => (u, false)
    | some found =>
      ({ u with sessions := u.sessions.map (fun s =>
           { s with isSelected := s.code = found.code }) }, true)

/-- Embeds `clearAlexaPresetSession(uid)` (lines 706-717). -/
def clearAlexaPresetSession (u : UserData) : UserData :=
  { u with sessions := u.sessions.map (fun s => { s with isSelected := false }) }

/-- Comparator of the `sort` call of `saveSession`:
`(a, b) => new Date(b.createdAt) - new Date(a.createdAt)` (newest first). -/
def createdDesc (a b : Session) : Prop :=
  b.createdAt ≤ a.createdAt

instance : DecidableRel createdDesc := fun a b =>
  inferInstanceAs (Decidable (b.createdAt ≤ a.createdAt))

/-- The `existingIndex !== -1 ? replace : append` step of `saveSession`
(lines 735-746): replace the first session matching `q` in place, or
append. -/
def replaceOrAppend (l : List Session) (q : Session → Bool)
    (data : Session) : List Session :=
  match l.findIdx? q with
  | some i => l.set i data
  | none => l ++ [data]

/-- Embeds `saveSession(uid, sessionName, startDate, endDate, setAsPreset)`
(lines 720-760).  The randomly generated `sessionCode` and the `createdAt`
timestamp are taken as arguments (the generator `generateSessionCode` is
nondeterministic in the source). -/
def saveSession (u : UserData) (sessionName : String)
    (startDate endDate : Option YMD) (setAsPreset : Bool)
    (sessionCode : String) (createdAt : Nat) : UserData :=
  let sessionData : Session :=
    ⟨sessionName, sessionCode, startDate, endDate, createdAt, setAsPreset⟩
  let updated0 := replaceOrAppend u.sessions
    (fun s => lowerStr s.name = lowerStr sessionName || s.code = sessionCode)
    sessionData
  let updated1 :=
    if setAsPreset then
      updated0.map (fun s => { s with isSelected := s.code = sessionCode })
    else updated0
  { u with sessions := updated1.insertionSort createdDesc }

/-! ### Per-day document store (src/unnamed/part_002, lines 1065-1104) -/

/-- A per-day document `{ status, ...extra }`; the document path
`attendance/{uid}/{y}/{y-m}/days/{date}` is determined by `(uid, date)`,
so the store is keyed by that pair. -/
structure DayDoc where
  status : String
  extra : List (String × String) := []
deriving DecidableEq, Repr

/-- The day-document store: one entry per existing document. -/
abbrev DayDB := List ((String × YMD) × DayDoc)

/-- Document read at a key. -/
def dbGet (db : DayDB) (k : String × YMD) : Option DayDoc :=
  (db.find? (fun e => e.1 = k)).map (fun e => e.2)

/-- Document write at a key (`tx.set`): replace or create. -/
def dbSet (db : DayDB) (k : String × YMD) (doc : DayDoc) : DayDB :=
  if db.any (fun e => e.1 = k) then
    db.map (fun e => if e.1 = k then (k, doc) else e)
  else db ++ [(k, doc)]

/-- Outcome of `setStatusIfEmpty`. -/
inductive SetIfEmptyResult where
  | ok
  | alreadySet (existing : String)
deriving DecidableEq, Repr

/-- Embeds `setStatusIfEmpty(uid, date, status, extra)` of part_002
(lines 1075-1096).  The whole body runs inside `db.runTransaction`, an
atomic read-modify-write: read the document; if it exists, abort with
`already_set` carrying the existing status (no write); otherwise create it. -/
def setStatusIfEmpty (db : DayDB) (uid : String) (date : YMD)
    (status : String) (extra : List (String × String) := []) :
    SetIfEmptyResult × DayDB :=
  match dbGet db (uid, date) with
  | some doc => (.alreadySet doc.status, db)
  | none => (.ok, dbSet db (uid, date) ⟨status, extra⟩)

/-- Embeds `setStatusOverwrite(uid, date, status, extra)` of part_002
(lines 1098-1104): unconditional upsert. -/
def setStatusOverwrite (db : DayDB) (uid : String) (date : YMD)
    (status : String) (extra : List (String × String) := []) : DayDB :=
  dbSet db (uid, date) ⟨status, extra⟩

/-- A sequential execution of several `setStatusIfEmpty` calls against the
same `(uid, date)`.  Each Firestore transaction is atomic, so any
concurrent execution of the calls is equivalent to some sequential order
of the whole transactions; quantifying over the list covers every order. -/
def runSetIfEmptyCalls (db : DayDB) (uid : String) (date : YMD) :
    List (String × List (String × String)) → List SetIfEmptyResult × DayDB
  | [] => ([], db)
  | c :: rest =>
    let r := setStatusIfEmpty db uid date c.1 c.2
    let t := runSetIfEmptyCalls r.2 uid date rest
    (r.1 :: t.1, t.2)

/-! ### Session registry and window of part_002 (lines 1106-1363) -/

/-- One session document of `DB/attendance/{uid}/sessions` in part_002. -/
structure Session2 where
  id : String
  name : String
  startDate : Option YMD
  endDate : Option YMD
  createdAt : Nat
deriving DecidableEq, Repr

/-- The `meta/selectedSession` document of part_002 (written by
`setSelectedSession`); the defensive reads `chosen.start`/`chosen.end` of
`getSessionWindow` are modelled by the optional `start`/`end2` fields. -/
structure SelectedMeta where
  name : String
  startDate : Option YMD
  endDate : Option YMD
  createdAt : Option Nat
  start : Option YMD := none
  end2 : Option YMD := none
deriving DecidableEq, Repr

/-- Embeds `fetchSessionByCreatedAt(uid, createdAtValue)` of part_002
(lines 1140-1187) over the session list: with a value, the first session
whose `createdAt` equals it, else the newest-created session; with no
value, the newest-created session.  (The query branch and the list-scan
branch of the source coincide over one in-memory list.) -/
def fetchSessionByCreatedAt (sessions : List Session2) :
    Option Nat → Option Session2
  | some v =>
    match sessions.find? (fun s => s.createdAt = v) with
    | some s => some s
    | none => (sessions.insertionSort
        (fun a b => b.createdAt ≤ a.createdAt)).head?
  | none => (sessions.insertionSort
        (fun a b => b.createdAt ≤ a.createdAt)).head?

/-- The day records of one year (day documents grouped under the year
collection in the source). -/
def daysInYearOf (dayIds : List YMD) (y : Nat) : List YMD :=
  dayIds.filter (fun d => d.y = y)

/-- The sorted distinct month ids of a year (derived, as in the source,
from the existing day documents). -/
def monthsOfYear (dayIds : List YMD) (y : Nat) : List Nat :=
  ((daysInYearOf dayIds y).map (fun d => d.m)).dedup.insertionSort (· ≤ ·)

/-- The earliest-day scan of `inferSessionFromAttendance` for one year:
take the first month id of the year, sort its day ids, take the first. -/
def firstDayOfYear (dayIds : List YMD) (y : Nat) : Option YMD :=
  match (monthsOfYear dayIds y).head? with
  | some m0 =>
    ((((daysInYearOf dayIds y).filter (fun d => d.m = m0)).map
        (fun d => d.d)).insertionSort (· ≤ ·)).head?.map (fun d0 => ⟨y, m0, d0⟩)
  | none => none

/-- The latest-day scan of `inferSessionFromAttendance` for one year:
take the last month id of the year, sort its day ids, take the last. -/
def lastDayOfYear (dayIds : List YMD) (y : Nat) : Option YMD :=
  match (monthsOfYear dayIds y).getLast? with
  | some m1 =>
    ((((daysInYearOf dayIds y).filter (fun d => d.m = m1)).map
        (fun d => d.d)).insertionSort (· ≤ ·)).getLast?.map (fun d1 => ⟨y, m1, d1⟩)
  | none => none

/-- Embeds `inferSessionFromAttendance(uid)` of part_002 (lines 1320-1363)
over the list of dates that have a day document: scan the years ascending
for the earliest day (first month of the first year holding days) and
descending for the latest; `none` when there is no record at all. -/
def inferSessionFromAttendance (dayIds : List YMD) (today : YMD) :
    Option (YMD × YMD) :=
  let years := (dayIds.map (fun d => d.y)).dedup.insertionSort (· ≤ ·)
  let earliest := years.findSome? (firstDayOfYear dayIds)
  let latest := years.reverse.findSome? (lastDayOfYear dayIds)
  match earliest with
  | some e => some (e, latest.getD today)
  | none => none

/-- Embeds `getSessionWindow(uid)` of part_002 (lines 1230-1252): selected
session (resolved through `fetchSessionByCreatedAt`), else the
newest-created session, else the window inferred from the day records,
else `[today, today]`. -/
def getSessionWindow (chosen : Option SelectedMeta) (sessions : List Session2)
    (dayIds : List YMD) (today : YMD) : YMD × YMD :=
  let fromChosen : Option (YMD × YMD) :=
    match chosen with
    | some c =>
      if c.createdAt.isSome then
        match fetchSessionByCreatedAt sessions c.createdAt with
        | some resolved =>
          match resolved.startDate with
          | some st => some (st, resolved.endDate.getD today)
          | none =>
            match c.startDate.orElse (fun _ => c.start) with
            | some st => some (st, (c.endDate.orElse (fun _ => c.end2)).getD today)
            | none => none
        | none =>
          match c.startDate.orElse (fun _ => c.start) with
          | some st => some (st, (c.endDate.orElse (fun _ => c.end2)).getD today)
          | none => none
      else none
    | none => none
  match fromChosen with
  | some w => w
  | none =>
    match fetchSessionByCreatedAt sessions none with
    | some latest =>
      (match latest.startDate with
       | some st => (st, latest.endDate.getD today)
       | none =>
         match inferSessionFromAttendance dayIds today with
         | some w => w
         | none => (today, today))
    | none =>
      match inferSessionFromAttendance dayIds today with
      | some w => w
      | none => (today, today)

/-- Embeds `isDayOffToday(dateYmd, weekday1to7, cfg)` of part_002
(lines 1059-1063); the weekday argument uses 1 = Monday .. 7 = Sunday. -/
def isDayOffToday (weekday1to7 : Nat) (weeklyDaysOff : List Nat) : Bool :=
  if weekday1to7 = 7 then true
  else weeklyDaysOff.contains weekday1to7

/-! ### Confirmation flow (src/api/alexa.js mark/yes/no intent handlers) -/

/-- The `sessionAttributes.pendingStatusChange` object. -/
structure PendingStatusChange where
  date : YMD
  newStatus : Status
  oldStatus : String
  holidayName : Option String := none
deriving DecidableEq, Repr

/-- Durable store plus the conversation-scoped attributes relevant to the
confirmation flow (the session-creation dialog flags are independent of it
and not modelled). -/
structure ConvState where
  userData : UserData
  pendingStatusChange : Option PendingStatusChange := none
deriving DecidableEq, Repr

/-- The status a mark intent requests. -/
inductive MarkRequest where
  | present
  | absent
  | holiday (name : String)
deriving DecidableEq, Repr

/-- Status value written for a mark request. -/
def requestedStatus : MarkRequest → Status
  | .present => .present
  | .absent => .absent
  | .holiday _ => .holiday

/-- Holiday name carried by a mark request. -/
def requestedHolidayName : MarkRequest → Option String
  | .holiday nm => some nm
  | _ => none

/-- The check `existingStatus.status === X || existingStatus === X` of the
mark handlers, where `X` is the requested status string. -/
def existingMatches (req : MarkRequest) (e : JSDayStatus) : Bool :=
  match req, e with
  | .present, .present => true
  | .absent, .absent => true
  | .holiday _, .holidayObj _ => true
  | _, _ => false

/-- The string `existingStatus.status || existingStatus` stored as
`oldStatus` of a pending change. -/
def statusString : JSDayStatus → String
  | .present => "present"
  | .absent => "absent"
  | .holidayObj _ => "holiday"
  | .notEnrolled => "not-enrolled"

/-- Embeds the bodies of MarkPresentIntentHandler (lines 803-863),
MarkAbsentIntentHandler (lines 865-925) and MarkHolidayIntentHandler
(lines 927-990) of src/api/alexa.js as one step on the store and the
conversation state: the present/absent handlers refuse non-working days;
an existing equal status is a no-op; an existing different status only
records the pending change; no existing status writes directly. -/
def markToday (req : MarkRequest) (today : YMD) (st : ConvState) : ConvState :=
  if (req = .present || req = .absent) && isNonWorkingDay today st.userData then
    st
  else
    match getDayStatus st.userData today with
    | some e =>
      if existingMatches req e then st
      else
        let pend : PendingStatusChange :=
          ⟨today, requestedStatus req, statusString e, requestedHolidayName req⟩
        { st with pendingStatusChange := some pend }
    | none =>
      let u2 := setDayStatus st.userData today (requestedStatus req)
        ⟨requestedHolidayName req⟩
      { st with userData := u2 }

/-- Embeds YesIntentHandler (lines 1569-1625): with a pending change, write
it via `setDayStatus` and clear the pending state; without one the handler
only starts the session-creation dialog (no store write, no pending). -/
def yesStep (st : ConvState) : ConvState :=
  match st.pendingStatusChange with
  | some p =>
    { userData := setDayStatus st.userData p.date p.newStatus ⟨p.holidayName⟩,
      pendingStatusChange := none }
  | none => st

/-- Embeds NoIntentHandler (lines 1627-1652): discard the pending change,
write nothing. -/
def noStep (st : ConvState) : ConvState :=
  { st with pendingStatusChange := none }

/-! ### Claim-side formulation of the monthly aggregation -/

/-- The calendar days of a month, day 1 to the last day. -/
def monthDays (year month : Nat) : List YMD :=
  (List.range' 1 (daysInMonth year month)).map (fun d => ⟨year, month, d⟩)

/-- A day counts into `totalWorkingDays`: not after today, a working day,
and without a holiday or not-enrolled status. -/
def countsInAggregation (u : UserData) (today : YMD) (date : YMD) : Bool :=
  ymdLe date today && !isNonWorkingDay date u &&
    !(u.holidays.any (fun h => h.date = date)) &&
    !(u.notEnrolled.contains date)

/-- The monthly percentage as the claim words it: filter the counted days,
count the present ones among them, round the ratio. -/
def monthlyPctSpec (u : UserData) (year month : Nat) (today : YMD) : Nat :=
  let counted := (monthDays year month).filter (countsInAggregation u today)
  let total := counted.length
  let present := counted.countP (fun d => recLookup u.records d = some true)
  if 0 < total then jsRound100 present total else 0

/-! ### Helper lemmas about association-list lookups -/

theorem find?_append_of_none {α : Type} (l1 l2 : List α) (p : α → Bool)
    (h : l1.find? p = none) : (l1 ++ l2).find? p = l2.find? p := by
  induction l1 with
  | nil => simp
  | cons a t ih =>
    by_cases hp : p a
    · rw [List.find?_cons_of_pos _ hp] at h
      exact absurd h (by simp)
    · rw [List.find?_cons_of_neg _ hp] at h
      rw [List.cons_append, List.find?_cons_of_neg _ hp]
      exact ih h

theorem find?_filter_ne {α : Type} (l : List α) (p q : α → Bool)
    (h : ∀ a, p a = true → q a = false) : (l.filter q).find? p = none := by
  rw [List.find?_eq_none]
  intro x hx
  rw [List.mem_filter] at hx
  intro hpx
  have := h x hpx
  rw [this] at hx
  exact absurd hx.2 (by simp)

theorem recLookup_set_self (l : List (YMD × Bool)) (date : YMD) (b : Bool) :
    recLookup ((l.filter (fun p => p.1 ≠ date)) ++ [(date, b)]) date = some b := by
  unfold recLookup
  rw [find?_append_of_none]
  · simp
  · apply find?_filter_ne
    intro a ha
    simp at ha ⊢
    exact ha

theorem recLookup_erased (l : List (YMD × Bool)) (date : YMD) :
    recLookup (l.filter (fun p => p.1 ≠ date)) date = none := by
  unfold recLookup
  rw [find?_filter_ne]
  · rfl
  · intro a ha
    simp at ha ⊢
    exact ha

theorem holidays_erased_not_any (l : List Holiday) (date : YMD) :
    (l.filter (fun h => h.date ≠ date)).any (fun h => h.date = date) = false := by
  rw [List.any_eq_false]
  intro x hx
  rw [List.mem_filter] at hx
  have h2 : x.date ≠ date := by simpa using hx.2
  simpa using h2

theorem holidays_set_any (l : List Holiday) (date : YMD) (nm : String) :
    ((l.filter (fun h => h.date ≠ date)) ++ [(⟨date, nm⟩ : Holiday)]).any
      (fun h => h.date = date) = true := by
  rw [List.any_eq_true]
  refine ⟨(⟨date, nm⟩ : Holiday), List.mem_append_right _ (by simp), by simp⟩

theorem holidays_set_find (l : List Holiday) (date : YMD) (nm : String) :
    ((l.filter (fun h => h.date ≠ date)) ++ [(⟨date, nm⟩ : Holiday)]).find?
      (fun h => h.date = date) = some (⟨date, nm⟩ : Holiday) := by
  rw [find?_append_of_none]
  · simp
  · apply find?_filter_ne
    intro a ha
    have h2 : a.date = date := by simpa using ha
    simpa using h2
theorem notEnrolled_erased (l : List YMD) (date : YMD) :
    (l.filter (fun d => d ≠ date)).contains date = false := by
  rw [List.contains_eq_any_beq, List.any_eq_false]
  intro x hx
  rw [List.mem_filter] at hx
  have h2 : x ≠ date := by simpa using hx.2
  simp only [beq_iff_eq]
  exact fun hc => h2 hc.symm

theorem notEnrolled_set (l : List YMD) (date : YMD) :
    ((l.filter (fun d => d ≠ date)) ++ [date]).contains date = true := by
  rw [List.contains_eq_any_beq, List.any_eq_true]
  exact ⟨date, List.mem_append_right _ (by simp), by simp⟩

/-- The `getDayStatus` value observed after `setDayStatus` wrote `status`. -/
def writtenStatus (status : Status) (extra : ExtraData) : JSDayStatus :=
  match status with
  | .present => .present
  | .absent => .absent
  | .holiday => .holidayObj (extra.holidayName.getD "Holiday")
  | .notEnrolled => .notEnrolled

theorem mergeEntry_fst (updates : List (YMD × Bool)) (p : YMD × Bool) :
    (mergeEntry updates p).1 = p.1 := by
  unfold mergeEntry
  cases recLookup updates p.1 <;> rfl

theorem mergeEntry_snd (updates : List (YMD × Bool)) (p : YMD × Bool) :
    (mergeEntry updates p).2
      = match recLookup updates p.1 with
        | some v => v
        | none => p.2 := by
  unfold mergeEntry
  cases recLookup updates p.1 <;> rfl

theorem find?_append_of_some {α : Type} (l1 l2 : List α) (p : α → Bool)
    {x : α} (h : l1.find? p = some x) : (l1 ++ l2).find? p = some x := by
  induction l1 with
  | nil => cases h
  | cons a t ih =>
    by_cases hp : p a
    · rw [List.find?_cons_of_pos _ hp] at h
      rw [List.cons_append, List.find?_cons_of_pos _ hp]
      exact h
    · rw [List.find?_cons_of_neg _ hp] at h
      rw [List.cons_append, List.find?_cons_of_neg _ hp]
      exact ih h

/-- Lookup in a merge-written `records` map: a key the write provides gets
the written value; any other key keeps its stored value. -/
theorem recLookup_mergeRecords (stored updates : List (YMD × Bool)) (k : YMD) :
    recLookup (mergeRecords stored updates) k
      = match recLookup updates k with
        | some v => some v
        | none => recLookup stored k := by
  have hpred : ((fun e : YMD × Bool => decide (e.1 = k)) ∘ mergeEntry updates)
      = fun e : YMD × Bool => decide (e.1 = k) := by
    funext e
    simp [Function.comp, mergeEntry_fst]
  cases hst : stored.find? (fun e => e.1 = k) with
  | some p0 =>
    have hp0 : p0.1 = k := by simpa using List.find?_some hst
    have hmap : (stored.map (mergeEntry updates)).find? (fun e => e.1 = k)
        = some (mergeEntry updates p0) := by
      rw [List.find?_map, hpred, hst]
      rfl
    unfold mergeRecords recLookup
    rw [find?_append_of_some _ _ _ hmap]
    show some ((mergeEntry updates p0).2) = _
    rw [mergeEntry_snd, hp0, hst]
    cases hu : updates.find? (fun p => p.1 = k) <;> simp [recLookup, hu]
  | none =>
    have hmap : (stored.map (mergeEntry updates)).find? (fun e => e.1 = k)
        = none := by
      rw [List.find?_map, hpred, hst]
      rfl
    have hany : stored.any (fun p => p.1 = k) = false := by
      rw [List.any_eq_false]
      intro x hx
      exact List.find?_eq_none.mp hst x hx
    unfold mergeRecords recLookup
    rw [find?_append_of_none _ _ _ hmap, List.find?_filter]
    have hfix : (fun a : YMD × Bool =>
        decide ((!stored.any (fun p => p.1 = a.1)) = true
          ∧ (decide (a.1 = k)) = true))
        = fun a : YMD × Bool => decide (a.1 = k) := by
      funext a
      by_cases hak : a.1 = k
      · simp [hak, hany]
      · simp [hak]
    rw [hfix, hst]
    cases hu : updates.find? (fun p => p.1 = k) <;> simp [recLookup, hu]

theorem setDayStatus_get_present (u : UserData) (date : YMD)
    (extra : ExtraData) :
    getDayStatus (setDayStatus u date .present extra) date
      = some .present := by
  unfold setDayStatus updateUserDataDayFields getDayStatus
  simp only [recLookup_mergeRecords, recLookup_set_self]
  simp

theorem setDayStatus_get_absent (u : UserData) (date : YMD)
    (extra : ExtraData) :
    getDayStatus (setDayStatus u date .absent extra) date
      = some .absent := by
  unfold setDayStatus updateUserDataDayFields getDayStatus
  simp only [recLookup_mergeRecords, recLookup_set_self]
  simp

/-- With no stored records entry for the date, the merge write behaves
like a replacement and the round-trip returns exactly the written
status. -/
theorem setDayStatus_get_of_no_record (u : UserData) (date : YMD)
    (status : Status) (extra : ExtraData)
    (h : recLookup u.records date = none) :
    getDayStatus (setDayStatus u date status extra) date
      = some (writtenStatus status extra) := by
  cases status with
  | present => exact setDayStatus_get_present u date extra
  | absent => exact setDayStatus_get_absent u date extra
  | holiday =>
    unfold setDayStatus updateUserDataDayFields getDayStatus writtenStatus
    have h2 := holidays_set_any u.holidays date (extra.holidayName.getD "Holiday")
    have h3 := holidays_set_find u.holidays date (extra.holidayName.getD "Holiday")
    simp only [recLookup_mergeRecords, recLookup_erased, h, h2, h3]
    simp
  | notEnrolled =>
    unfold setDayStatus updateUserDataDayFields getDayStatus writtenStatus
    have h2 := holidays_erased_not_any u.holidays date
    have h3 := notEnrolled_set u.notEnrolled date
    simp only [recLookup_mergeRecords, recLookup_erased, h, h2, h3]
    simp

/-- With a stored records entry for the date, a holiday or not-enrolled
write does not remove it — the merge-mode `set` never deletes the map
key — and `getDayStatus` still answers the stale present/absent value. -/
theorem setDayStatus_get_stale (u : UserData) (date : YMD) (status : Status)
    (extra : ExtraData) (b : Bool)
    (hb : recLookup u.records date = some b)
    (hs : status = .holiday ∨ status = .notEnrolled) :
    getDayStatus (setDayStatus u date status extra) date
      = some (if b then .present else .absent) := by
  rcases hs with rfl | rfl
  · unfold setDayStatus updateUserDataDayFields getDayStatus
    simp only [recLookup_mergeRecords, recLookup_erased, hb]
  · unfold setDayStatus updateUserDataDayFields getDayStatus
    simp only [recLookup_mergeRecords, recLookup_erased, hb]

/-- Bridge between `List.contains` and membership for decidable equality. -/
theorem contains_iff_mem {α : Type} [DecidableEq α] (l : List α) (a : α) :
    l.contains a = true ↔ a ∈ l := by
  rw [List.contains_eq_any_beq, List.any_eq_true]
  constructor
  · rintro ⟨x, hx, he⟩
    have hax : a = x := by simpa using he
    rwa [hax]
  · intro h
    exact ⟨a, h, by simp⟩

/-- C10 counterexample: with a prior present record on 2024-06-03, writing
a holiday over it and reading the day back still answers `present`: the
stale records entry survives the merge-mode write (while the holidays
array did receive the new entry). -/
theorem c10_set_get_counterexample :
    getDayStatus (setDayStatus ⟨[(⟨2024, 6, 3⟩, true)], [], [], [], []⟩
        ⟨2024, 6, 3⟩ .holiday ⟨some "Eid"⟩) ⟨2024, 6, 3⟩ = some .present
    ∧ (setDayStatus ⟨[(⟨2024, 6, 3⟩, true)], [], [], [], []⟩
        ⟨2024, 6, 3⟩ .holiday ⟨some "Eid"⟩).records = [(⟨2024, 6, 3⟩, true)]
    ∧ (setDayStatus ⟨[(⟨2024, 6, 3⟩, true)], [], [], [], []⟩
        ⟨2024, 6, 3⟩ .holiday ⟨some "Eid"⟩).holidays = [⟨⟨2024, 6, 3⟩, "Eid"⟩]
    ∧ some JSDayStatus.present ≠ some (JSDayStatus.holidayObj "Eid") :=
  ⟨by decide, by decide, by decide, by decide⟩

/-- C10 (amended): the set-then-get round-trip returns exactly the written
status when that status is present or absent (for any prior state), and
for every status when the date has no stored records entry; but because
`updateUserData` writes with `set(..., { merge: true })`, which deep-merges
the `records` map and never deletes the date key (the `holidays` and
`notEnrolled` arrays are replaced wholesale), a holiday or not-enrolled
write over a stored present/absent entry leaves that entry in place and
`getDayStatus` still returns the stale present/absent status. -/
theorem c10_set_get_roundtrip_amended (u : UserData) (date : YMD)
    (status : Status) (extra : ExtraData) (b : Bool) :
    getDayStatus (setDayStatus u date .present extra) date = some .present
    ∧ getDayStatus (setDayStatus u date .absent extra) date = some .absent
    ∧ (recLookup u.records date = none →
        getDayStatus (setDayStatus u date status extra) date
          = some (writtenStatus status extra))
    ∧ (recLookup u.records date = some b →
        (status = .holiday ∨ status = .notEnrolled) →
        getDayStatus (setDayStatus u date status extra) date
          = some (if b then .present else .absent))
    ∧ (∀ nm : String, writtenStatus .holiday ⟨some nm⟩ = .holidayObj nm) :=
  ⟨setDayStatus_get_present u date extra,
   setDayStatus_get_absent u date extra,
   setDayStatus_get_of_no_record u date status extra,
   setDayStatus_get_stale u date status extra b,
   fun _ => rfl⟩

/-- Closed instance of `c10_set_get_roundtrip_amended`: a holiday written
on an empty store reads back as that holiday; written over a present
record it still reads back present. -/
theorem c10_set_get_roundtrip_amended_witness :
    (recLookup ([] : List (YMD × Bool)) ⟨2024, 6, 3⟩ = none)
    ∧ getDayStatus (setDayStatus ⟨[], [], [], [], []⟩ ⟨2024, 6, 3⟩ .holiday
        ⟨some "Eid"⟩) ⟨2024, 6, 3⟩ = some (.holidayObj "Eid")
    ∧ (recLookup [((⟨2024, 6, 3⟩ : YMD), true)] ⟨2024, 6, 3⟩ = some true)
    ∧ getDayStatus (setDayStatus ⟨[(⟨2024, 6, 3⟩, true)], [], [], [], []⟩
        ⟨2024, 6, 3⟩ .holiday ⟨some "Eid"⟩) ⟨2024, 6, 3⟩ = some .present :=
  ⟨by decide,
   (c10_set_get_roundtrip_amended ⟨[], [], [], [], []⟩ ⟨2024, 6, 3⟩ .holiday
     ⟨some "Eid"⟩ true).2.2.1 (by decide),
   by decide,
   (c10_set_get_roundtrip_amended ⟨[(⟨2024, 6, 3⟩, true)], [], [], [], []⟩
     ⟨2024, 6, 3⟩ .holiday ⟨some "Eid"⟩ true).2.2.2.1 (by decide) (Or.inl rfl)⟩

/-- C8: a date is non-working exactly when its weekday is Sunday (JS
weekday 0) or the weekday lies in the configured `weeklyDaysOff`; the
decision depends on nothing else in the per-user data (in particular not
on holiday or enrollment state). -/
theorem c8_working_day_policy (date : YMD) (u : UserData) :
    (isNonWorkingDay date u = true ↔
      (jsGetDay date = 0 ∨ jsGetDay date ∈ u.weeklyDaysOff))
    ∧ (∀ u2 : UserData, u2.weeklyDaysOff = u.weeklyDaysOff →
        isNonWorkingDay date u2 = isNonWorkingDay date u) := by
  constructor
  · unfold isNonWorkingDay
    cases hc : u.weeklyDaysOff.contains (jsGetDay date) with
    | false =>
      have hm : ¬ jsGetDay date ∈ u.weeklyDaysOff := by
        intro hm
        rw [(contains_iff_mem _ _).mpr hm] at hc
        exact Bool.noConfusion hc
      by_cases h : jsGetDay date = 0
      · simp [h, hc]
      · simp [h, hc, hm]
    | true =>
      have hm : jsGetDay date ∈ u.weeklyDaysOff := (contains_iff_mem _ _).mp hc
      by_cases h : jsGetDay date = 0
      · simp [h, hc]
      · simp [h, hc, hm]
  · intro u2 h2
    unfold isNonWorkingDay
    rw [h2]

/-- Closed instance of `c8_working_day_policy`: the policy ignores the
holiday list (only `weeklyDaysOff` matters), and Sunday 2024-06-02 is
non-working. -/
theorem c8_working_day_policy_witness :
    ((⟨[], [⟨⟨2024, 6, 4⟩, "X"⟩], [], [2], []⟩ : UserData).weeklyDaysOff
        = (⟨[], [], [], [2], []⟩ : UserData).weeklyDaysOff)
    ∧ isNonWorkingDay ⟨2024, 6, 4⟩ ⟨[], [⟨⟨2024, 6, 4⟩, "X"⟩], [], [2], []⟩
        = isNonWorkingDay ⟨2024, 6, 4⟩ ⟨[], [], [], [2], []⟩
    ∧ isNonWorkingDay ⟨2024, 6, 2⟩ (⟨[], [], [], [], []⟩ : UserData) = true :=
  ⟨rfl,
   (c8_working_day_policy ⟨2024, 6, 4⟩ ⟨[], [], [], [2], []⟩).2
     ⟨[], [⟨⟨2024, 6, 4⟩, "X"⟩], [], [2], []⟩ rfl,
   (c8_working_day_policy ⟨2024, 6, 2⟩ ⟨[], [], [], [], []⟩).1.mpr
     (Or.inl (by decide))⟩

/-- C9: `today()` is the calendar date of the instant obtained by adding
the configured constant minute offset to the UTC wall-clock instant; it is
a pure function of that shifted instant (the offset enters only through
the constant shift, with no other timezone logic). -/
theorem c9_clock_constant_offset (nowUtcMs offsetMinutes : Int) :
    localYMD nowUtcMs offsetMinutes
        = msToUTCDate (nowUtcMs + offsetMinutes * 60000)
    ∧ localYMD nowUtcMs offsetMinutes
        = localYMD (nowUtcMs + offsetMinutes * 60000) 0
    ∧ ∀ n2 o2 : Int, nowUtcMs + offsetMinutes * 60000 = n2 + o2 * 60000 →
        localYMD nowUtcMs offsetMinutes = localYMD n2 o2 := by
  refine ⟨rfl, by simp [localYMD, localNowWithOffset], ?_⟩
  intro n2 o2 h
  simp [localYMD, localNowWithOffset, h]

/-- Closed instance of `c9_clock_constant_offset`: midnight UTC with the
IST offset 330 yields the same date as the pre-shifted instant at offset
zero. -/
theorem c9_clock_constant_offset_witness :
    ((0 : Int) + 330 * 60000 = 19800000 + 0 * 60000)
    ∧ localYMD 0 330 = localYMD 19800000 0 :=
  ⟨by decide, (c9_clock_constant_offset 0 330).2.2 19800000 0 (by decide)⟩

/-! ### Lemmas about the per-day document store -/

theorem dbGet_none_find {db : DayDB} {k : String × YMD}
    (h : dbGet db k = none) : db.find? (fun e => e.1 = k) = none := by
  unfold dbGet at h
  cases hf : db.find? (fun e => e.1 = k) with
  | none => rfl
  | some x => rw [hf] at h; exact absurd h (by simp)

theorem dbGet_none_forall {db : DayDB} {k : String × YMD}
    (h : dbGet db k = none) : ∀ e ∈ db, e.1 ≠ k := by
  intro e he hk
  have := List.find?_eq_none.mp (dbGet_none_find h) e he
  simp [hk] at this

theorem dbGet_append_self (db : DayDB) (k : String × YMD) (doc : DayDoc)
    (h : dbGet db k = none) : dbGet (db ++ [(k, doc)]) k = some doc := by
  unfold dbGet
  rw [find?_append_of_none _ _ _ (dbGet_none_find h)]
  simp

theorem setStatusIfEmpty_of_absent (db : DayDB) (uid : String) (date : YMD)
    (status : String) (extra : List (String × String))
    (h : dbGet db (uid, date) = none) :
    setStatusIfEmpty db uid date status extra
      = (.ok, db ++ [((uid, date), ⟨status, extra⟩)]) := by
  unfold setStatusIfEmpty
  rw [h]
  have ha : db.any (fun e => e.1 = (uid, date)) = false := by
    rw [List.any_eq_false]
    intro x hx
    simpa using dbGet_none_forall h x hx
  unfold dbSet
  simp only [ha]
  simp

theorem setStatusIfEmpty_of_existing (db : DayDB) (uid : String) (date : YMD)
    (status : String) (extra : List (String × String)) (doc : DayDoc)
    (h : dbGet db (uid, date) = some doc) :
    setStatusIfEmpty db uid date status extra = (.alreadySet doc.status, db) := by
  unfold setStatusIfEmpty
  rw [h]

theorem runCalls_existing (db : DayDB) (uid : String) (date : YMD)
    (doc : DayDoc) (h : dbGet db (uid, date) = some doc)
    (calls : List (String × List (String × String))) :
    runSetIfEmptyCalls db uid date calls
      = (calls.map (fun _ => SetIfEmptyResult.alreadySet doc.status), db) := by
  induction calls with
  | nil => rfl
  | cons c rest ih =>
    unfold runSetIfEmptyCalls
    rw [setStatusIfEmpty_of_existing db uid date c.1 c.2 doc h]
    simp [ih]

/-- C3: `setStatusIfEmpty` on an absent `(uid, date)` writes the record and
returns `ok`; a second call for the same key leaves the store unchanged
(exactly one record for the key, with the originally written status) and
returns `already_set` carrying the existing status. -/
theorem c3_set_if_absent_idempotent (db : DayDB) (uid : String) (date : YMD)
    (status status2 : String) (extra extra2 : List (String × String))
    (h : dbGet db (uid, date) = none) :
    (setStatusIfEmpty db uid date status extra).1 = .ok
    ∧ (setStatusIfEmpty (setStatusIfEmpty db uid date status extra).2
        uid date status2 extra2).1 = .alreadySet status
    ∧ (setStatusIfEmpty (setStatusIfEmpty db uid date status extra).2
        uid date status2 extra2).2 = (setStatusIfEmpty db uid date status extra).2
    ∧ dbGet (setStatusIfEmpty db uid date status extra).2 (uid, date)
        = some ⟨status, extra⟩
    ∧ ((setStatusIfEmpty db uid date status extra).2.countP
        (fun e => e.1 = (uid, date))) = 1 := by
  have h1 := setStatusIfEmpty_of_absent db uid date status extra h
  have hget := dbGet_append_self db (uid, date) ⟨status, extra⟩ h
  have h2 := setStatusIfEmpty_of_existing (db ++ [((uid, date), ⟨status, extra⟩)])
    uid date status2 extra2 ⟨status, extra⟩ hget
  rw [h1]
  refine ⟨rfl, by rw [h2], by rw [h2], hget, ?_⟩
  rw [List.countP_append]
  have hz : db.countP (fun e => e.1 = (uid, date)) = 0 := by
    rw [List.countP_eq_zero]
    intro e he
    simpa using dbGet_none_forall h e he
  simp [hz]

/-- Closed instance of `c3_set_if_absent_idempotent` on the empty store. -/
theorem c3_set_if_absent_idempotent_witness :
    dbGet ([] : DayDB) ("u1", ⟨2024, 6, 3⟩) = none
    ∧ (setStatusIfEmpty ([] : DayDB) "u1" ⟨2024, 6, 3⟩ "present" []).1 = .ok
    ∧ (setStatusIfEmpty
        (setStatusIfEmpty ([] : DayDB) "u1" ⟨2024, 6, 3⟩ "present" []).2
        "u1" ⟨2024, 6, 3⟩ "present" []).1 = .alreadySet "present" :=
  ⟨rfl,
   (c3_set_if_absent_idempotent [] "u1" ⟨2024, 6, 3⟩ "present" "present"
     [] [] rfl).1,
   (c3_set_if_absent_idempotent [] "u1" ⟨2024, 6, 3⟩ "present" "present"
     [] [] rfl).2.1⟩

/-- C6: for any sequential order of N calls of `setStatusIfEmpty` against
the same absent `(uid, date)` — each call is one atomic `runTransaction`
read-modify-write, so every concurrent schedule is equivalent to some such
order — the first call in the order wins (`ok`, its document persisted)
and all the other N-1 calls observe `already_set` with the winning status;
no update is lost. -/
theorem c6_concurrent_set_if_absent (db : DayDB) (uid : String) (date : YMD)
    (c : String × List (String × String))
    (rest : List (String × List (String × String)))
    (h : dbGet db (uid, date) = none) :
    (runSetIfEmptyCalls db uid date (c :: rest)).1
        = .ok :: rest.map (fun _ => .alreadySet c.1)
    ∧ dbGet (runSetIfEmptyCalls db uid date (c :: rest)).2 (uid, date)
        = some ⟨c.1, c.2⟩
    ∧ ((runSetIfEmptyCalls db uid date (c :: rest)).1.countP
        (fun r => r = .ok)) = 1
    ∧ ((runSetIfEmptyCalls db uid date (c :: rest)).1.countP
        (fun r => r ≠ .ok)) = rest.length := by
  have h1 := setStatusIfEmpty_of_absent db uid date c.1 c.2 h
  have hget := dbGet_append_self db (uid, date) ⟨c.1, c.2⟩ h
  have h2 := runCalls_existing (db ++ [((uid, date), ⟨c.1, c.2⟩)]) uid date
    ⟨c.1, c.2⟩ hget rest
  have hrun : runSetIfEmptyCalls db uid date (c :: rest)
      = (.ok :: rest.map (fun _ => SetIfEmptyResult.alreadySet c.1),
         db ++ [((uid, date), ⟨c.1, c.2⟩)]) := by
    unfold runSetIfEmptyCalls
    rw [h1]
    simp [h2]
  rw [hrun]
  refine ⟨rfl, hget, ?_, ?_⟩
  · rw [List.countP_cons]
    simp [List.countP_map]
  · rw [List.countP_cons]
    have hr : ∀ n : Nat, List.countP (fun r => !decide (r = SetIfEmptyResult.ok))
        (List.replicate n (SetIfEmptyResult.alreadySet c.1)) = n := by
      intro n
      induction n with
      | zero => rfl
      | succ k ih => simp_all [List.replicate_succ, List.countP_cons]
    simp [hr rest.length]

/-- Closed instance of `c6_concurrent_set_if_absent` with three calls of
pairwise different statuses. -/
theorem c6_concurrent_set_if_absent_witness :
    dbGet ([] : DayDB) ("u1", ⟨2024, 6, 3⟩) = none
    ∧ (runSetIfEmptyCalls ([] : DayDB) "u1" ⟨2024, 6, 3⟩
        [("absent", []), ("present", []), ("holiday", [])]).1
      = [.ok, .alreadySet "absent", .alreadySet "absent"] :=
  ⟨rfl,
   (c6_concurrent_set_if_absent [] "u1" ⟨2024, 6, 3⟩ ("absent", [])
     [("present", []), ("holiday", [])] rfl).1⟩

/-! ### Monthly aggregation: fold characterization -/

theorem monthlyStep_char (u : UserData) (today : YMD) (year month : Nat)
    (acc : Nat × Nat) (day : Nat) :
    monthlyStep u today year month acc day =
      if countsInAggregation u today ⟨year, month, day⟩ then
        (acc.1 +
          (if recLookup u.records ⟨year, month, day⟩ = some true then 1 else 0),
         acc.2 + 1)
      else acc := by
  simp only [monthlyStep, countsInAggregation, ymdLt_eq_not_ymdLe]
  rcases Bool.eq_false_or_eq_true (ymdLe ⟨year, month, day⟩ today) with h1 | h1 <;>
    rcases Bool.eq_false_or_eq_true (isNonWorkingDay ⟨year, month, day⟩ u)
      with h2 | h2 <;>
      rcases Bool.eq_false_or_eq_true
          (u.holidays.any (fun h => h.date = (⟨year, month, day⟩ : YMD)))
        with h3 | h3 <;>
        rcases Bool.eq_false_or_eq_true
            (u.notEnrolled.contains ⟨year, month, day⟩) with h4 | h4 <;>
          simp [h1, h2, h3, h4]

theorem monthly_foldl (u : UserData) (today : YMD) (year month : Nat)
    (days : List Nat) (p t : Nat) :
    days.foldl (monthlyStep u today year month) (p, t)
      = (p + ((days.map (fun d => (⟨year, month, d⟩ : YMD))).filter
            (countsInAggregation u today)).countP
            (fun d => recLookup u.records d = some true),
         t + ((days.map (fun d => (⟨year, month, d⟩ : YMD))).filter
            (countsInAggregation u today)).length) := by
  induction days generalizing p t with
  | nil => simp
  | cons d rest ih =>
    rw [List.foldl_cons, monthlyStep_char]
    by_cases h : countsInAggregation u today ⟨year, month, d⟩ = true
    · rw [if_pos h, ih]
      by_cases hr : recLookup u.records ⟨year, month, d⟩ = some true <;>
        simp [h, hr, List.filter_cons, List.countP_cons, Prod.mk.injEq] <;>
          omega
    · rw [if_neg h, ih]
      have hb : countsInAggregation u today ⟨year, month, d⟩ = false := by
        rcases Bool.eq_false_or_eq_true
            (countsInAggregation u today ⟨year, month, d⟩) with hx | hx
        · exact absurd hx h
        · exact hx
      simp [List.filter_cons, hb]

/-- Exact rounding agrees with `Math.round` over the rationals:
`jsRound100 p t` is the nearest integer to `100 * p / t`, half rounded up. -/
theorem jsRound100_eq_round (p t : Nat) (ht : 0 < t) :
    (jsRound100 p t : ℤ) = round ((100 * p : ℚ) / (t : ℚ)) := by
  have htq : (t : ℚ) ≠ 0 := by
    exact_mod_cast ht.ne.symm
  rw [round_eq]
  have h2 : (100 * p : ℚ) / (t : ℚ) + 1 / 2
      = ((200 * p + t : ℕ) : ℚ) / ((2 * t : ℕ) : ℚ) := by
    push_cast
    field_simp
    ring
  rw [h2, Rat.floor_natCast_div_natCast]
  unfold jsRound100
  norm_cast

/-- C1: `calculateMonthlyAttendance` walks the calendar days of the month
from day 1 to the last day, drops days after today, non-working days and
days with a holiday or not-enrolled status, counts the remaining days as
`totalWorkingDays` and those among them with a true record as
`presentDays`, and returns the half-up rounding of
`100 * presentDays / totalWorkingDays` (0 when no working day counted):
it equals the claim-side `monthlyPctSpec`, and `jsRound100` is exact
half-up rounding. -/
theorem c1_monthly_percentage (u : UserData) (year month : Nat) (today : YMD) :
    calculateMonthlyAttendance u year month today
        = monthlyPctSpec u year month today
    ∧ ∀ p t : Nat, 0 < t →
        (jsRound100 p t : ℤ) = round ((100 * p : ℚ) / (t : ℚ)) := by
  constructor
  · unfold calculateMonthlyAttendance monthlyPctSpec monthDays
    simp only [monthly_foldl]
    simp
  · exact fun p t ht => jsRound100_eq_round p t ht

/-- Closed instance of `c1_monthly_percentage`: June 2024 with one present
Monday, today pinned inside the month, and the rounding at 3 of 4. -/
theorem c1_monthly_percentage_witness :
    calculateMonthlyAttendance ⟨[(⟨2024, 6, 3⟩, true)], [], [], [], []⟩ 2024 6
        ⟨2024, 6, 4⟩
      = monthlyPctSpec ⟨[(⟨2024, 6, 3⟩, true)], [], [], [], []⟩ 2024 6
        ⟨2024, 6, 4⟩
    ∧ (0 : Nat) < 4
    ∧ (jsRound100 3 4 : ℤ) = round ((100 * 3 : ℚ) / (4 : ℚ)) :=
  ⟨(c1_monthly_percentage ⟨[(⟨2024, 6, 3⟩, true)], [], [], [], []⟩ 2024 6
      ⟨2024, 6, 4⟩).1,
   by decide,
   (c1_monthly_percentage ⟨[(⟨2024, 6, 3⟩, true)], [], [], [], []⟩ 2024 6
      ⟨2024, 6, 4⟩).2 3 4 (by decide)⟩

/-! ### Future-date exclusion and end clamping -/

theorem cond_min (cur endD today : YMD) :
    (ymdLe cur endD && ymdLe cur today)
      = (ymdLe cur (minYMD endD today) && ymdLe cur today) := by
  unfold minYMD
  by_cases h : ymdLe endD today = true
  · rw [if_pos h]
  · rw [if_neg h]
    have hh : ¬ (ymdLe endD today = true) := h
    rw [ymdLe_iff] at hh
    cases h2 : ymdLe cur today with
    | false => simp
    | true =>
      have h2p := (ymdLe_iff cur today).mp h2
      have h1p : ymdLe cur endD = true := by
        rw [ymdLe_iff]
        omega
      rw [h1p]

theorem sessionWalk_clamp (u : UserData) (endD today : YMD) (fuel : Nat)
    (cur : YMD) :
    sessionWalk u endD today fuel cur
      = sessionWalk u (minYMD endD today) today fuel cur := by
  induction fuel generalizing cur with
  | zero => rfl
  | succ k ih =>
    simp only [sessionWalk, ← cond_min, ih]

theorem sessionWalk_future (u : UserData) (endD today : YMD) (fuel : Nat)
    (cur : YMD) (h : ymdLt today cur = true) :
    sessionWalk u endD today fuel cur = (0, 0) := by
  have h2 : ymdLe cur today = false := by
    cases hb : ymdLe cur today with
    | false => rfl
    | true =>
      rw [ymdLt_eq_not_ymdLe, hb] at h
      exact absurd h (by simp)
  cases fuel with
  | zero => rfl
  | succ k => simp [sessionWalk, h2]

/-- C7: the aggregation end of the session walk is effectively clamped to
today — walking to `endD` equals walking to `min endD today`, and the
resolver turns a selected session with null `endDate` into an end of
today — and a date strictly after today contributes nothing: the session
walk started there is `(0, 0)`, and the monthly loop body skips it. -/
theorem c7_future_date_exclusion (u : UserData) (endD today cur : YMD)
    (fuel : Nat) (sessions : List Session) (s : Session) (nm : Option String)
    (currentYear : Nat) (year month day : Nat) (acc : Nat × Nat) :
    sessionWalk u endD today fuel cur
        = sessionWalk u (minYMD endD today) today fuel cur
    ∧ (ymdLt today cur = true → sessionWalk u endD today fuel cur = (0, 0))
    ∧ (ymdLt today ⟨year, month, day⟩ = true →
        monthlyStep u today year month acc day = acc)
    ∧ (sessions.find? (fun x => x.isSelected) = some s →
        s.startDate.isSome = true → s.endDate = none →
        (resolveSessionWindow sessions nm today currentYear).endDate
          = some today) := by
  refine ⟨sessionWalk_clamp u endD today fuel cur,
    sessionWalk_future u endD today fuel cur, ?_, ?_⟩
  · intro h
    simp [monthlyStep, h]
  · intro hfind hstart hend
    unfold resolveSessionWindow
    rw [hfind]
    rcases Option.isSome_iff_exists.mp hstart with ⟨st, hst⟩
    simp [hst, hend]

/-- Closed instance of `c7_future_date_exclusion`: walking from a date one
day after today yields `(0, 0)`, and a selected open-ended session is
clamped to today. -/
theorem c7_future_date_exclusion_witness :
    ymdLt ⟨2024, 6, 4⟩ ⟨2024, 6, 5⟩ = true
    ∧ sessionWalk ⟨[], [], [], [], []⟩ ⟨2024, 6, 30⟩ ⟨2024, 6, 4⟩ 40
        ⟨2024, 6, 5⟩ = (0, 0)
    ∧ (resolveSessionWindow
        [⟨"Summer", "summerab", some ⟨2024, 6, 1⟩, none, 5, true⟩] none
        ⟨2024, 6, 4⟩ 2024).endDate = some ⟨2024, 6, 4⟩ :=
  ⟨by decide,
   (c7_future_date_exclusion ⟨[], [], [], [], []⟩ ⟨2024, 6, 30⟩ ⟨2024, 6, 4⟩
     ⟨2024, 6, 5⟩ 40 [⟨"Summer", "summerab", some ⟨2024, 6, 1⟩, none, 5, true⟩]
     ⟨"Summer", "summerab", some ⟨2024, 6, 1⟩, none, 5, true⟩ none 2024
     2024 6 5 (0, 0)).2.1 (by decide),
   (c7_future_date_exclusion ⟨[], [], [], [], []⟩ ⟨2024, 6, 30⟩ ⟨2024, 6, 4⟩
     ⟨2024, 6, 5⟩ 40 [⟨"Summer", "summerab", some ⟨2024, 6, 1⟩, none, 5, true⟩]
     ⟨"Summer", "summerab", some ⟨2024, 6, 1⟩, none, 5, true⟩ none 2024
     2024 6 5 (0, 0)).2.2.2 (by decide) (by decide) rfl⟩

/-- C4 counterexample: with 2024-06-03 already present, the holiday mark
correctly records only the pending change, but the subsequent "yes" does
not overwrite the day: the merge-mode write keeps the stale records entry
and the day still reads `present` rather than the confirmed holiday. -/
theorem c4_confirmation_flow_counterexample :
    markToday (.holiday "Eid") ⟨2024, 6, 3⟩
        ⟨⟨[(⟨2024, 6, 3⟩, true)], [], [], [], []⟩, none⟩
      = ⟨⟨[(⟨2024, 6, 3⟩, true)], [], [], [], []⟩,
         some ⟨⟨2024, 6, 3⟩, .holiday, "present", some "Eid"⟩⟩
    ∧ getDayStatus (yesStep ⟨⟨[(⟨2024, 6, 3⟩, true)], [], [], [], []⟩,
        some ⟨⟨2024, 6, 3⟩, .holiday, "present", some "Eid"⟩⟩).userData
        ⟨2024, 6, 3⟩ = some .present
    ∧ some JSDayStatus.present ≠ some (JSDayStatus.holidayObj "Eid") :=
  ⟨by decide, by decide, by decide⟩

/-- C4 (amended): marking today when an existing status differs from the
requested one writes nothing durable and only records the pending change;
a "yes" issues the overwrite write and clears the pending state, after
which the day reads the new status when that status is present or absent,
or when the records map held no entry for the date — but a confirmed
holiday or not-enrolled change over a stored present/absent entry leaves
that entry in place (the merge-mode write never deletes it) and the day
still reads the old status; a "no" clears the pending state with the
store untouched; marking when the existing status already equals the
requested one changes nothing at all. -/
theorem c4_confirmation_flow_amended (st : ConvState) (today : YMD)
    (req : MarkRequest) (e : JSDayStatus) (p : PendingStatusChange) (b : Bool) :
    (isNonWorkingDay today st.userData = false →
      getDayStatus st.userData today = some e →
      existingMatches req e = false →
      (markToday req today st).userData = st.userData ∧
      (markToday req today st).pendingStatusChange
        = some ⟨today, requestedStatus req, statusString e,
                requestedHolidayName req⟩)
    ∧ (isNonWorkingDay today st.userData = false →
        getDayStatus st.userData today = some e →
        existingMatches req e = true →
        markToday req today st = st)
    ∧ (st.pendingStatusChange = some p →
        (yesStep st).pendingStatusChange = none
        ∧ (yesStep st).userData
            = setDayStatus st.userData p.date p.newStatus ⟨p.holidayName⟩
        ∧ ((p.newStatus = .present ∨ p.newStatus = .absent ∨
              recLookup st.userData.records p.date = none) →
            getDayStatus (yesStep st).userData p.date
              = some (writtenStatus p.newStatus ⟨p.holidayName⟩))
        ∧ (recLookup st.userData.records p.date = some b →
            (p.newStatus = .holiday ∨ p.newStatus = .notEnrolled) →
            getDayStatus (yesStep st).userData p.date
              = some (if b then .present else .absent)))
    ∧ (st.pendingStatusChange = some p →
        (noStep st).pendingStatusChange = none ∧
        (noStep st).userData = st.userData) := by
  refine ⟨?_, ?_, ?_, ?_⟩
  · intro hw hg hm
    simp [markToday, hw, hg, hm]
  · intro hw hg hm
    simp [markToday, hw, hg, hm]
  · intro hp
    have hu : (yesStep st).userData
        = setDayStatus st.userData p.date p.newStatus ⟨p.holidayName⟩ := by
      simp [yesStep, hp]
    refine ⟨by simp [yesStep, hp], hu, ?_, ?_⟩
    · intro hcase
      rw [hu]
      rcases hcase with hpr | hab | hnone
      · rw [hpr]
        exact setDayStatus_get_present st.userData p.date ⟨p.holidayName⟩
      · rw [hab]
        exact setDayStatus_get_absent st.userData p.date ⟨p.holidayName⟩
      · exact setDayStatus_get_of_no_record st.userData p.date p.newStatus
          ⟨p.holidayName⟩ hnone
    · intro hb hs
      rw [hu]
      exact setDayStatus_get_stale st.userData p.date p.newStatus
        ⟨p.holidayName⟩ b hb hs
  · intro hp
    exact ⟨rfl, rfl⟩

/-- Closed instance of `c4_confirmation_flow_amended`: on a day already
present, the absent mark records only the pending change; confirming
absent overwrites the day; confirming a holiday over present leaves the
day reading present. -/
theorem c4_confirmation_flow_amended_witness :
    isNonWorkingDay ⟨2024, 6, 3⟩ ⟨[(⟨2024, 6, 3⟩, true)], [], [], [], []⟩ = false
    ∧ getDayStatus ⟨[(⟨2024, 6, 3⟩, true)], [], [], [], []⟩ ⟨2024, 6, 3⟩
        = some .present
    ∧ existingMatches .absent .present = false
    ∧ (markToday .absent ⟨2024, 6, 3⟩
        ⟨⟨[(⟨2024, 6, 3⟩, true)], [], [], [], []⟩, none⟩).userData
        = ⟨[(⟨2024, 6, 3⟩, true)], [], [], [], []⟩
    ∧ getDayStatus (yesStep ⟨⟨[(⟨2024, 6, 3⟩, true)], [], [], [], []⟩,
        some ⟨⟨2024, 6, 3⟩, .absent, "present", none⟩⟩).userData ⟨2024, 6, 3⟩
        = some .absent
    ∧ recLookup [((⟨2024, 6, 3⟩ : YMD), true)] ⟨2024, 6, 3⟩ = some true
    ∧ getDayStatus (yesStep ⟨⟨[(⟨2024, 6, 3⟩, true)], [], [], [], []⟩,
        some ⟨⟨2024, 6, 3⟩, .holiday, "present", some "Eid"⟩⟩).userData
        ⟨2024, 6, 3⟩ = some .present :=
  ⟨by decide, by decide, by decide,
   ((c4_confirmation_flow_amended
      ⟨⟨[(⟨2024, 6, 3⟩, true)], [], [], [], []⟩, none⟩ ⟨2024, 6, 3⟩
      .absent .present ⟨⟨2024, 6, 3⟩, .absent, "present", none⟩ true).1
      (by decide) (by decide) (by decide)).1,
   ((c4_confirmation_flow_amended ⟨⟨[(⟨2024, 6, 3⟩, true)], [], [], [], []⟩,
      some ⟨⟨2024, 6, 3⟩, .absent, "present", none⟩⟩ ⟨2024, 6, 3⟩ .absent
      .present ⟨⟨2024, 6, 3⟩, .absent, "present", none⟩ true).2.2.1
      rfl).2.2.1 (Or.inr (Or.inl rfl)),
   by decide,
   ((c4_confirmation_flow_amended ⟨⟨[(⟨2024, 6, 3⟩, true)], [], [], [], []⟩,
      some ⟨⟨2024, 6, 3⟩, .holiday, "present", some "Eid"⟩⟩ ⟨2024, 6, 3⟩
      .absent .present ⟨⟨2024, 6, 3⟩, .holiday, "present", some "Eid"⟩
      true).2.2.1 rfl).2.2.2 (by decide) (Or.inl rfl)⟩

/-! ### Single-selection invariant of the session registry -/

/-- Number of sessions flagged selected. -/
def selectedCount (l : List Session) : Nat :=
  l.countP (fun s => s.isSelected)

/-- One user-visible operation on the session registry of alexa.js. -/
inductive SessionOp where
  | create (name : String) (startDate endDate : Option YMD) (preset : Bool)
      (code : String) (createdAt : Nat)
  | select (identifier : String)
  | clearSel
deriving DecidableEq, Repr

/-- Dispatch of a registry operation to the embedded source functions;
the `create` carries the generated code and timestamp as data. -/
def applySessionOp (u : UserData) : SessionOp → UserData
  | .create nm sd ed preset code t => saveSession u nm sd ed preset code t
  | .select ident => (setAlexaPresetSession u ident).1
  | .clearSel => clearAlexaPresetSession u

/-- A sequence of registry operations, applied in order. -/
def runSessionOps (u : UserData) : List SessionOp → UserData
  | [] => u
  | op :: rest => runSessionOps (applySessionOp u op) rest

/-- Every `create` of the sequence carries a code that is fresh for the
registry state it meets — the contract of `generateSessionCode`, whose
random uniqueness suffix exists, per the source comment and spec, so that
codes never collide. -/
def freshCodes : UserData → List SessionOp → Bool
  | _, [] => true
  | u, op :: rest =>
    (match op with
     | .create _ _ _ _ code _ => u.sessions.all (fun s => s.code ≠ code)
     | _ => true) && freshCodes (applySessionOp u op) rest

theorem mem_set_self {α : Type} (l : List α) (i : Nat) (a : α)
    (h : i < l.length) : a ∈ l.set i a := by
  induction l generalizing i with
  | nil => simp at h
  | cons b t ih =>
    cases i with
    | zero => simp [List.set]
    | succ k =>
      simp only [List.set, List.mem_cons]
      exact Or.inr (ih k (by simpa using h))

theorem nodup_set_of_not_mem {α : Type} {l : List α} {a : α} (i : Nat)
    (hn : l.Nodup) (ha : a ∉ l) : (l.set i a).Nodup := by
  induction l generalizing i with
  | nil => simp
  | cons b t ih =>
    rw [List.nodup_cons] at hn
    cases i with
    | zero =>
      simp only [List.set]
      rw [List.nodup_cons]
      exact ⟨fun hm => ha (List.mem_cons_of_mem b hm), hn.2⟩
    | succ k =>
      simp only [List.set]
      rw [List.nodup_cons]
      refine ⟨fun hm => ?_,
        ih k hn.2 (fun hm2 => ha (List.mem_cons_of_mem b hm2))⟩
      rcases List.mem_or_eq_of_mem_set hm with hm2 | hbe
      · exact hn.1 hm2
      · exact ha (by rw [← hbe]; exact List.mem_cons_self b t)

theorem countP_set_le {α : Type} (p : α → Bool) (l : List α) (i : Nat) (a : α)
    (hpa : p a = false) : (l.set i a).countP p ≤ l.countP p := by
  induction l generalizing i with
  | nil => simp
  | cons b t ih =>
    cases i with
    | zero =>
      simp only [List.set]
      rw [List.countP_cons, List.countP_cons, hpa]
      cases hpb : p b <;> simp [hpb]
    | succ k =>
      simp only [List.set]
      rw [List.countP_cons, List.countP_cons]
      have := ih k
      cases hpb : p b <;> simp [hpb] <;> omega

theorem countP_code_eq_one {l : List Session} {c : String}
    (hn : (l.map (fun s => s.code)).Nodup) (hex : ∃ s ∈ l, s.code = c) :
    l.countP (fun s => s.code = c) = 1 := by
  induction l with
  | nil =>
    rcases hex with ⟨s, hs, _⟩
    cases hs
  | cons a t ih =>
    rw [List.map_cons, List.nodup_cons] at hn
    rw [List.countP_cons]
    by_cases hc : a.code = c
    · have ht : t.countP (fun s => s.code = c) = 0 := by
        rw [List.countP_eq_zero]
        intro s hs hsc
        have hsc2 : s.code = c := by simpa using hsc
        exact hn.1 (by
          rw [hc]
          exact List.mem_map.mpr ⟨s, hs, hsc2⟩)
      simp [ht, hc]
    · rcases hex with ⟨s, hs, hsc⟩
      rcases List.mem_cons.mp hs with rfl | hs2
      · exact absurd hsc hc
      · rw [ih hn.2 ⟨s, hs2, hsc⟩]
        simp [hc]

theorem countP_set_le_succ {α : Type} (p : α → Bool) (l : List α) (i : Nat)
    (a : α) : (l.set i a).countP p ≤ l.countP p + 1 := by
  induction l generalizing i with
  | nil => simp
  | cons b t ih =>
    cases i with
    | zero =>
      simp only [List.set]
      rw [List.countP_cons, List.countP_cons]
      cases hpa : p a <;> cases hpb : p b <;> simp [hpa, hpb] <;> omega
    | succ k =>
      simp only [List.set]
      rw [List.countP_cons, List.countP_cons]
      have := ih k
      cases hpb : p b <;> simp [hpb] <;> omega

theorem replaceOrAppend_nodup (l : List Session) (q : Session → Bool)
    (data : Session) (hn : (l.map (fun s => s.code)).Nodup)
    (hfresh : ∀ s ∈ l, s.code ≠ data.code) :
    ((replaceOrAppend l q data).map (fun s => s.code)).Nodup := by
  unfold replaceOrAppend
  cases hidx : l.findIdx? q with
  | none =>
    rw [List.map_append, List.nodup_append]
    refine ⟨hn, by simp, ?_⟩
    intro a ha hb
    rcases List.mem_map.mp ha with ⟨s, hsmem, rfl⟩
    have hb2 : s.code = data.code := by simpa using hb
    exact hfresh s hsmem hb2
  | some i =>
    rw [List.map_set]
    exact nodup_set_of_not_mem i hn (fun hm => by
      rcases List.mem_map.mp hm with ⟨s, hsmem, hcode⟩
      exact hfresh s hsmem hcode)

theorem replaceOrAppend_mem (l : List Session) (q : Session → Bool)
    (data : Session) : ∃ s ∈ replaceOrAppend l q data, s.code = data.code := by
  unfold replaceOrAppend
  cases hidx : l.findIdx? q with
  | none => exact ⟨data, List.mem_append_right _ (by simp), rfl⟩
  | some i =>
    have hi : i < l.length := (List.findIdx?_eq_some_iff_findIdx_eq.mp hidx).1
    exact ⟨data, mem_set_self l i data hi, rfl⟩

theorem replaceOrAppend_selected (l : List Session) (q : Session → Bool)
    (data : Session) :
    selectedCount (replaceOrAppend l q data)
      ≤ selectedCount l + (if data.isSelected then 1 else 0) := by
  unfold replaceOrAppend selectedCount
  cases hidx : l.findIdx? q with
  | none =>
    rw [List.countP_append]
    cases hd : data.isSelected <;> simp [hd]
  | some i =>
    cases hd : data.isSelected
    · have := countP_set_le (fun s => s.isSelected) l i data (by simp [hd])
      simp only [hd, if_false]
      omega
    · have := countP_set_le_succ (fun s => s.isSelected) l i data
      simp only [hd, if_true]
      omega

theorem preset_map_codes (l : List Session) (c : String) :
    ((l.map (fun s => { s with isSelected := s.code = c })).map
        (fun s => s.code)) = l.map (fun s => s.code) := by
  rw [List.map_map]
  rfl

theorem preset_map_selected (l : List Session) (c : String)
    (hn : (l.map (fun s => s.code)).Nodup) (hex : ∃ s ∈ l, s.code = c) :
    selectedCount (l.map (fun s => { s with isSelected := s.code = c })) = 1 := by
  unfold selectedCount
  rw [List.countP_map]
  exact countP_code_eq_one hn hex

theorem saveSession_preserves (u : UserData) (nm : String)
    (sd ed : Option YMD) (preset : Bool) (code : String) (t : Nat)
    (hn : (u.sessions.map (fun s => s.code)).Nodup)
    (hs : selectedCount u.sessions ≤ 1)
    (hfresh : ∀ s ∈ u.sessions, s.code ≠ code) :
    (((saveSession u nm sd ed preset code t).sessions.map
        (fun s => s.code)).Nodup)
    ∧ selectedCount (saveSession u nm sd ed preset code t).sessions ≤ 1 := by
  unfold saveSession
  simp only []
  set q : Session → Bool :=
    fun s => lowerStr s.name = lowerStr nm || s.code = code with hq
  set data : Session := ⟨nm, code, sd, ed, t, preset⟩ with hdata
  have hfresh2 : ∀ s ∈ u.sessions, s.code ≠ data.code := hfresh
  have h0n := replaceOrAppend_nodup u.sessions q data hn hfresh2
  have h0m := replaceOrAppend_mem u.sessions q data
  have h0s := replaceOrAppend_selected u.sessions q data
  set u0 : List Session := replaceOrAppend u.sessions q data with hu0
  set u1 : List Session :=
    if preset then u0.map (fun s => { s with isSelected := s.code = code })
    else u0 with hu1
  have h1n : (u1.map (fun s => s.code)).Nodup := by
    rw [hu1]
    cases preset
    · simpa using h0n
    · simpa [preset_map_codes] using h0n
  have h1s : selectedCount u1 ≤ 1 := by
    rw [hu1]
    cases hp : preset
    · rw [if_neg (by simp)]
      rw [hdata] at h0s
      simp only [hp] at h0s
      simp at h0s
      omega
    · rw [if_pos rfl]
      rw [preset_map_selected u0 code h0n (by simpa [hdata] using h0m)]
  have hperm := List.perm_insertionSort createdDesc u1
  constructor
  · rw [(hperm.map (fun s => s.code)).nodup_iff]
    exact h1n
  · unfold selectedCount
    rw [hperm.countP_eq]
    exact h1s

theorem setAlexaPresetSession_preserves (u : UserData) (ident : String)
    (hn : (u.sessions.map (fun s => s.code)).Nodup)
    (hs : selectedCount u.sessions ≤ 1) :
    ((((setAlexaPresetSession u ident).1).sessions.map
        (fun s => s.code)).Nodup)
    ∧ selectedCount ((setAlexaPresetSession u ident).1).sessions ≤ 1 := by
  unfold setAlexaPresetSession
  by_cases he : u.sessions.isEmpty = true
  · rw [if_pos he]
    exact ⟨hn, hs⟩
  · rw [if_neg he]
    cases hf : u.sessions.find? (fun s =>
        s.code = ident || (s.name ≠ "" && lowerStr s.name = lowerStr ident)) with
    | none => exact ⟨hn, hs⟩
    | some found =>
      have hmem : found ∈ u.sessions := List.mem_of_find?_eq_some hf
      constructor
      · simpa [preset_map_codes] using hn
      · rw [preset_map_selected u.sessions found.code hn ⟨found, hmem, rfl⟩]

theorem clearAlexaPresetSession_preserves (u : UserData)
    (hn : (u.sessions.map (fun s => s.code)).Nodup) :
    (((clearAlexaPresetSession u).sessions.map (fun s => s.code)).Nodup)
    ∧ selectedCount (clearAlexaPresetSession u).sessions = 0 := by
  unfold clearAlexaPresetSession
  constructor
  · simp only [List.map_map]
    simpa using hn
  · unfold selectedCount
    rw [List.countP_map]
    simp [Function.comp]

theorem applySessionOp_preserves (u : UserData) (op : SessionOp)
    (hn : (u.sessions.map (fun s => s.code)).Nodup)
    (hs : selectedCount u.sessions ≤ 1)
    (hfresh : (match op with
      | .create _ _ _ _ code _ => u.sessions.all (fun s => s.code ≠ code)
      | _ => true) = true) :
    (((applySessionOp u op).sessions.map (fun s => s.code)).Nodup)
    ∧ selectedCount (applySessionOp u op).sessions ≤ 1 := by
  cases op with
  | create nm sd ed preset code t =>
    have hfresh2 : ∀ s ∈ u.sessions, s.code ≠ code := by
      intro s hsmem
      have := List.all_eq_true.mp hfresh s hsmem
      simpa using this
    exact saveSession_preserves u nm sd ed preset code t hn hs hfresh2
  | select ident => exact setAlexaPresetSession_preserves u ident hn hs
  | clearSel =>
    have h := clearAlexaPresetSession_preserves u hn
    refine ⟨h.1, ?_⟩
    show selectedCount (clearAlexaPresetSession u).sessions ≤ 1
    rw [h.2]
    omega

theorem runSessionOps_preserves (ops : List SessionOp) (u : UserData)
    (hn : (u.sessions.map (fun s => s.code)).Nodup)
    (hs : selectedCount u.sessions ≤ 1)
    (hf : freshCodes u ops = true) :
    (((runSessionOps u ops).sessions.map (fun s => s.code)).Nodup)
    ∧ selectedCount (runSessionOps u ops).sessions ≤ 1 := by
  induction ops generalizing u with
  | nil => exact ⟨hn, hs⟩
  | cons op rest ih =>
    unfold freshCodes at hf
    rw [Bool.and_eq_true] at hf
    have hstep := applySessionOp_preserves u op hn hs hf.1
    exact ih (applySessionOp u op) hstep.1 hstep.2 hf.2

/-- C5: after any sequence of session create, select and clear-selection
operations starting from an empty registry, and with every generated
session code fresh for the state it meets (the contract of the random
uniqueness suffix of `generateSessionCode`), at most one session of the
registry carries the selected flag. -/
theorem c5_single_selection (u0 : UserData) (h0 : u0.sessions = [])
    (ops : List SessionOp) (hf : freshCodes u0 ops = true) :
    selectedCount (runSessionOps u0 ops).sessions ≤ 1 := by
  refine (runSessionOps_preserves ops u0 ?_ ?_ hf).2
  · rw [h0]
    simp
  · unfold selectedCount
    rw [h0]
    simp

/-- Closed instance of `c5_single_selection`: create a preset session,
create a second one as preset, select the first, then clear. -/
theorem c5_single_selection_witness :
    ((⟨[], [], [], [], []⟩ : UserData).sessions = [])
    ∧ freshCodes ⟨[], [], [], [], []⟩
        [.create "Summer" none none true "summaaaa" 1,
         .create "Winter" none none true "wintbbbb" 2,
         .select "summaaaa", .clearSel] = true
    ∧ selectedCount (runSessionOps ⟨[], [], [], [], []⟩
        [.create "Summer" none none true "summaaaa" 1,
         .create "Winter" none none true "wintbbbb" 2,
         .select "summaaaa", .clearSel]).sessions ≤ 1 :=
  ⟨rfl, by decide,
   c5_single_selection ⟨[], [], [], [], []⟩ rfl
     [.create "Summer" none none true "summaaaa" 1,
      .create "Winter" none none true "wintbbbb" 2,
      .select "summaaaa", .clearSel] (by decide)⟩

/-! ### The inferred window is the earliest-to-latest recorded day -/

theorem sorted_head_min {l : List Nat} {a : Nat}
    (hs : l.Pairwise (· ≤ ·)) (hh : l.head? = some a) : ∀ x ∈ l, a ≤ x := by
  cases l with
  | nil => cases hh
  | cons b t =>
    have hb : b = a := by simpa using hh
    subst hb
    rw [List.pairwise_cons] at hs
    intro x hx
    rcases List.mem_cons.mp hx with rfl | hx2
    · exact le_refl x
    · exact hs.1 x hx2

theorem sorted_getLast_max {l : List Nat} {a : Nat}
    (hs : l.Pairwise (· ≤ ·)) (hh : l.getLast? = some a) : ∀ x ∈ l, x ≤ a := by
  induction l with
  | nil => cases hh
  | cons b t ih =>
    cases t with
    | nil =>
      have hb : b = a := by simpa using hh
      subst hb
      intro x hx
      rcases List.mem_cons.mp hx with rfl | hx2
      · exact le_refl x
      · cases hx2
    | cons c t2 =>
      rw [List.getLast?_cons_cons] at hh
      rw [List.pairwise_cons] at hs
      intro x hx
      rcases List.mem_cons.mp hx with rfl | hx2
      · exact hs.1 a (List.mem_of_mem_getLast? hh)
      · exact ih hs.2 hh x hx2

theorem mem_of_head?_sort {l : List Nat} {a : Nat}
    (hh : (l.insertionSort (· ≤ ·)).head? = some a) : a ∈ l := by
  have hm : a ∈ l.insertionSort (· ≤ ·) := by
    cases hl : l.insertionSort (· ≤ ·) with
    | nil => rw [hl] at hh; cases hh
    | cons b t =>
      rw [hl] at hh
      have hb : b = a := by simpa using hh
      subst hb
      exact List.mem_cons_self b t
  exact (List.perm_insertionSort (· ≤ ·) l).subset hm

theorem mem_of_getLast?_sort {l : List Nat} {a : Nat}
    (hh : (l.insertionSort (· ≤ ·)).getLast? = some a) : a ∈ l := by
  have hm : a ∈ l.insertionSort (· ≤ ·) := List.mem_of_mem_getLast? hh
  exact (List.perm_insertionSort (· ≤ ·) l).subset hm

theorem sort_head_min_all {l : List Nat} {a : Nat}
    (hh : (l.insertionSort (· ≤ ·)).head? = some a) : ∀ x ∈ l, a ≤ x := by
  intro x hx
  have hs : (l.insertionSort (· ≤ ·)).Pairwise (· ≤ ·) :=
    List.sorted_insertionSort (· ≤ ·) l
  exact sorted_head_min hs hh x
    (((List.perm_insertionSort (· ≤ ·) l).symm).subset hx)

theorem sort_getLast_max_all {l : List Nat} {a : Nat}
    (hh : (l.insertionSort (· ≤ ·)).getLast? = some a) : ∀ x ∈ l, x ≤ a := by
  intro x hx
  have hs : (l.insertionSort (· ≤ ·)).Pairwise (· ≤ ·) :=
    List.sorted_insertionSort (· ≤ ·) l
  exact sorted_getLast_max hs hh x
    (((List.perm_insertionSort (· ≤ ·) l).symm).subset hx)

theorem sort_head?_isSome_of_ne_nil {l : List Nat} (h : l ≠ []) :
    ∃ a, (l.insertionSort (· ≤ ·)).head? = some a := by
  cases hl : l.insertionSort (· ≤ ·) with
  | nil =>
    have := (List.perm_insertionSort (· ≤ ·) l).length_eq
    rw [hl] at this
    cases l with
    | nil => exact absurd rfl h
    | cons b t => simp at this
  | cons b t => exact ⟨b, rfl⟩

theorem sort_getLast?_isSome_of_ne_nil {l : List Nat} (h : l ≠ []) :
    ∃ a, (l.insertionSort (· ≤ ·)).getLast? = some a := by
  cases hl : l.insertionSort (· ≤ ·) with
  | nil =>
    have := (List.perm_insertionSort (· ≤ ·) l).length_eq
    rw [hl] at this
    cases l with
    | nil => exact absurd rfl h
    | cons b t => simp at this
  | cons b t =>
    cases hg : (b :: t).getLast? with
    | none => exact absurd (List.getLast?_eq_none_iff.mp hg) (by simp)
    | some a => exact ⟨a, rfl⟩

theorem firstDayOfYear_spec (dayIds : List YMD) (y : Nat)
    (hex : ∃ d ∈ dayIds, d.y = y) :
    ∃ e, firstDayOfYear dayIds y = some e ∧ e ∈ dayIds ∧ e.y = y
      ∧ ∀ d ∈ dayIds, d.y = y → ymdLe e d = true := by
  obtain ⟨w, hw, hwy⟩ := hex
  have hwIn : w ∈ daysInYearOf dayIds y :=
    List.mem_filter.mpr ⟨hw, by simpa using hwy⟩
  have hmonthsNe : ((daysInYearOf dayIds y).map (fun d => d.m)).dedup ≠ [] := by
    intro h0
    have hm : w.m ∈ ((daysInYearOf dayIds y).map (fun d => d.m)).dedup :=
      List.mem_dedup.mpr (List.mem_map.mpr ⟨w, hwIn, rfl⟩)
    rw [h0] at hm
    cases hm
  obtain ⟨m0, hm0⟩ := sort_head?_isSome_of_ne_nil hmonthsNe
  have hm0mem := mem_of_head?_sort hm0
  have hm0min := sort_head_min_all hm0
  obtain ⟨wm, hwmIn, hwmm⟩ : ∃ d ∈ daysInYearOf dayIds y, d.m = m0 := by
    rcases List.mem_map.mp (List.mem_dedup.mp hm0mem) with ⟨d, hd, hdm⟩
    exact ⟨d, hd, hdm⟩
  have hdlne : (((daysInYearOf dayIds y).filter (fun d => d.m = m0)).map
      (fun d => d.d)) ≠ [] := by
    intro h0
    have hm : wm.d ∈ ((daysInYearOf dayIds y).filter (fun d => d.m = m0)).map
        (fun d => d.d) :=
      List.mem_map.mpr ⟨wm, List.mem_filter.mpr ⟨hwmIn, by simpa using hwmm⟩, rfl⟩
    rw [h0] at hm
    cases hm
  obtain ⟨d0, hd0⟩ := sort_head?_isSome_of_ne_nil hdlne
  have hd0mem := mem_of_head?_sort hd0
  have hd0min := sort_head_min_all hd0
  refine ⟨⟨y, m0, d0⟩, ?_, ?_, rfl, ?_⟩
  · unfold firstDayOfYear monthsOfYear
    simp [hm0, hd0]
  · rcases List.mem_map.mp hd0mem with ⟨d, hdmem, hdd⟩
    rcases List.mem_filter.mp hdmem with ⟨hdin, hdm⟩
    rcases List.mem_filter.mp hdin with ⟨hdIds, hdy⟩
    have hdy2 : d.y = y := by simpa using hdy
    have hdm2 : d.m = m0 := by simpa using hdm
    have hde : d = ⟨y, m0, d0⟩ := by
      obtain ⟨dy, dm, dd⟩ := d
      simp_all
    rw [← hde]
    exact hdIds
  · intro d hd hdy
    have hdin : d ∈ daysInYearOf dayIds y :=
      List.mem_filter.mpr ⟨hd, by simpa using hdy⟩
    have hmle : m0 ≤ d.m :=
      hm0min d.m (List.mem_dedup.mpr (List.mem_map.mpr ⟨d, hdin, rfl⟩))
    by_cases hmeq : d.m = m0
    · have hdd : d.d ∈ ((daysInYearOf dayIds y).filter (fun x => x.m = m0)).map
          (fun x => x.d) :=
        List.mem_map.mpr ⟨d, List.mem_filter.mpr ⟨hdin, by simpa using hmeq⟩, rfl⟩
      have hdle : d0 ≤ d.d := hd0min d.d hdd
      rw [ymdLe_iff]
      exact Or.inr ⟨hdy.symm, Or.inr ⟨hmeq.symm, hdle⟩⟩
    · rw [ymdLe_iff]
      refine Or.inr ⟨hdy.symm, Or.inl ?_⟩
      show m0 < d.m
      omega

theorem lastDayOfYear_spec (dayIds : List YMD) (y : Nat)
    (hex : ∃ d ∈ dayIds, d.y = y) :
    ∃ la, lastDayOfYear dayIds y = some la ∧ la ∈ dayIds ∧ la.y = y
      ∧ ∀ d ∈ dayIds, d.y = y → ymdLe d la = true := by
  obtain ⟨w, hw, hwy⟩ := hex
  have hwIn : w ∈ daysInYearOf dayIds y :=
    List.mem_filter.mpr ⟨hw, by simpa using hwy⟩
  have hmonthsNe : ((daysInYearOf dayIds y).map (fun d => d.m)).dedup ≠ [] := by
    intro h0
    have hm : w.m ∈ ((daysInYearOf dayIds y).map (fun d => d.m)).dedup :=
      List.mem_dedup.mpr (List.mem_map.mpr ⟨w, hwIn, rfl⟩)
    rw [h0] at hm
    cases hm
  obtain ⟨m1, hm1⟩ := sort_getLast?_isSome_of_ne_nil hmonthsNe
  have hm1mem := mem_of_getLast?_sort hm1
  have hm1max := sort_getLast_max_all hm1
  obtain ⟨wm, hwmIn, hwmm⟩ : ∃ d ∈ daysInYearOf dayIds y, d.m = m1 := by
    rcases List.mem_map.mp (List.mem_dedup.mp hm1mem) with ⟨d, hd, hdm⟩
    exact ⟨d, hd, hdm⟩
  have hdlne : (((daysInYearOf dayIds y).filter (fun d => d.m = m1)).map
      (fun d => d.d)) ≠ [] := by
    intro h0
    have hm : wm.d ∈ ((daysInYearOf dayIds y).filter (fun d => d.m = m1)).map
        (fun d => d.d) :=
      List.mem_map.mpr ⟨wm, List.mem_filter.mpr ⟨hwmIn, by simpa using hwmm⟩, rfl⟩
    rw [h0] at hm
    cases hm
  obtain ⟨d1, hd1⟩ := sort_getLast?_isSome_of_ne_nil hdlne
  have hd1mem := mem_of_getLast?_sort hd1
  have hd1max := sort_getLast_max_all hd1
  refine ⟨⟨y, m1, d1⟩, ?_, ?_, rfl, ?_⟩
  · unfold lastDayOfYear monthsOfYear
    simp [hm1, hd1]
  · rcases List.mem_map.mp hd1mem with ⟨d, hdmem, hdd⟩
    rcases List.mem_filter.mp hdmem with ⟨hdin, hdm⟩
    rcases List.mem_filter.mp hdin with ⟨hdIds, hdy⟩
    have hdy2 : d.y = y := by simpa using hdy
    have hdm2 : d.m = m1 := by simpa using hdm
    have hde : d = ⟨y, m1, d1⟩ := by
      obtain ⟨dy, dm, dd⟩ := d
      simp_all
    rw [← hde]
    exact hdIds
  · intro d hd hdy
    have hdin : d ∈ daysInYearOf dayIds y :=
      List.mem_filter.mpr ⟨hd, by simpa using hdy⟩
    have hmle : d.m ≤ m1 :=
      hm1max d.m (List.mem_dedup.mpr (List.mem_map.mpr ⟨d, hdin, rfl⟩))
    by_cases hmeq : d.m = m1
    · have hdd : d.d ∈ ((daysInYearOf dayIds y).filter (fun x => x.m = m1)).map
          (fun x => x.d) :=
        List.mem_map.mpr ⟨d, List.mem_filter.mpr ⟨hdin, by simpa using hmeq⟩, rfl⟩
      have hdle : d.d ≤ d1 := hd1max d.d hdd
      rw [ymdLe_iff]
      exact Or.inr ⟨hdy, Or.inr ⟨hmeq, hdle⟩⟩
    · rw [ymdLe_iff]
      refine Or.inr ⟨hdy, Or.inl ?_⟩
      show d.m < m1
      omega

theorem inferSession_spec (dayIds : List YMD) (today : YMD) (hne : dayIds ≠ []) :
    ∃ e la, inferSessionFromAttendance dayIds today = some (e, la)
      ∧ e ∈ dayIds ∧ (∀ d ∈ dayIds, ymdLe e d = true)
      ∧ la ∈ dayIds ∧ (∀ d ∈ dayIds, ymdLe d la = true) := by
  have hydne : (dayIds.map (fun d => d.y)).dedup ≠ [] := by
    obtain ⟨w, hw⟩ := List.exists_mem_of_ne_nil dayIds hne
    intro h0
    have hm : w.y ∈ (dayIds.map (fun d => d.y)).dedup :=
      List.mem_dedup.mpr (List.mem_map.mpr ⟨w, hw, rfl⟩)
    rw [h0] at hm
    cases hm
  obtain ⟨y0, hy0⟩ := sort_head?_isSome_of_ne_nil hydne
  have hy0mem := mem_of_head?_sort hy0
  have hy0min := sort_head_min_all hy0
  obtain ⟨yN, hyN⟩ := sort_getLast?_isSome_of_ne_nil hydne
  have hyNmem := mem_of_getLast?_sort hyN
  have hyNmax := sort_getLast_max_all hyN
  have hy0ex : ∃ d ∈ dayIds, d.y = y0 := by
    rcases List.mem_map.mp (List.mem_dedup.mp hy0mem) with ⟨d, hd, hdy⟩
    exact ⟨d, hd, hdy⟩
  have hyNex : ∃ d ∈ dayIds, d.y = yN := by
    rcases List.mem_map.mp (List.mem_dedup.mp hyNmem) with ⟨d, hd, hdy⟩
    exact ⟨d, hd, hdy⟩
  obtain ⟨e, hef, heMem, hey, heMin⟩ := firstDayOfYear_spec dayIds y0 hy0ex
  obtain ⟨la, hlaf, hlaMem, hlay, hlaMax⟩ := lastDayOfYear_spec dayIds yN hyNex
  set years := ((dayIds.map (fun d => d.y)).dedup).insertionSort (· ≤ ·)
    with hyrs
  have hfind1 : years.findSome? (firstDayOfYear dayIds) = some e := by
    cases hyl : years with
    | nil => rw [hyl] at hy0; cases hy0
    | cons b t =>
      have hb : b = y0 := by rw [hyl] at hy0; simpa using hy0
      subst hb
      simp [hef]
  have hfind2 : years.reverse.findSome? (lastDayOfYear dayIds) = some la := by
    have hrev : years.reverse.head? = some yN := by
      rw [List.head?_reverse]
      exact hyN
    cases hyl : years.reverse with
    | nil => rw [hyl] at hrev; cases hrev
    | cons b t =>
      have hb : b = yN := by rw [hyl] at hrev; simpa using hrev
      subst hb
      simp [hlaf]
  refine ⟨e, la, ?_, heMem, ?_, hlaMem, ?_⟩
  · unfold inferSessionFromAttendance
    rw [← hyrs]
    simp [hfind1, hfind2]
  · intro d hd
    have hyd : y0 ≤ d.y :=
      hy0min d.y (List.mem_dedup.mpr (List.mem_map.mpr ⟨d, hd, rfl⟩))
    by_cases hy : d.y = y0
    · exact heMin d hd hy
    · rw [ymdLe_iff]
      refine Or.inl ?_
      rw [hey]
      omega
  · intro d hd
    have hyd : d.y ≤ yN :=
      hyNmax d.y (List.mem_dedup.mpr (List.mem_map.mpr ⟨d, hd, rfl⟩))
    by_cases hy : d.y = yN
    · exact hlaMax d hd hy
    · rw [ymdLe_iff]
      refine Or.inl ?_
      rw [hlay]
      omega

/-! ### C2: session resolution -/

/-- C2 counterexample: in `calculateSessionAttendance` an explicitly given
session name is not looked up first and a failed lookup does not raise a
session-not-found error.  With no sessions and the explicit name `winter`,
the resolver silently answers the current-year window; with a selected
session `Summer` present, the explicit name `Winter` (which names an
existing session) is ignored and `Summer`'s window is used. -/
theorem c2_session_resolution_counterexample :
    resolveSessionWindow [] (some "winter") ⟨2024, 6, 4⟩ 2024
      = ⟨some ⟨2024, 1, 1⟩, some ⟨2024, 12, 31⟩, "current year"⟩
    ∧ resolveSessionWindow
        [⟨"Summer", "summcode", some ⟨2024, 4, 1⟩, some ⟨2024, 6, 30⟩, 1, true⟩,
         ⟨"Winter", "wintcode", some ⟨2024, 11, 1⟩, some ⟨2025, 1, 31⟩, 2, false⟩]
        (some "Winter") ⟨2024, 6, 4⟩ 2024
      = ⟨some ⟨2024, 4, 1⟩, some ⟨2024, 6, 30⟩, "Summer"⟩ :=
  ⟨by decide, by decide⟩

theorem pairwise_head_rel {α : Type} {r : α → α → Prop} {l : List α} {a : α}
    (hrefl : ∀ x, r x x) (hs : l.Pairwise r) (hh : l.head? = some a) :
    ∀ x ∈ l, r a x := by
  cases l with
  | nil => cases hh
  | cons b t =>
    have hb : b = a := by simpa using hh
    subst hb
    rw [List.pairwise_cons] at hs
    intro x hx
    rcases List.mem_cons.mp hx with rfl | hx2
    · exact hrefl x
    · exact hs.1 x hx2

instance : IsTotal Session2 (fun a b => b.createdAt ≤ a.createdAt) :=
  ⟨fun a b => le_total b.createdAt a.createdAt⟩

instance : IsTrans Session2 (fun a b => b.createdAt ≤ a.createdAt) :=
  ⟨fun _ _ _ hab hbc => le_trans hbc hab⟩

/-- With no stored `createdAt` value, `fetchSessionByCreatedAt` returns the
newest-created session of the list. -/
theorem fetch_none_newest (sessions2 : List Session2) (s2 : Session2)
    (h : fetchSessionByCreatedAt sessions2 none = some s2) :
    s2 ∈ sessions2 ∧ ∀ x ∈ sessions2, x.createdAt ≤ s2.createdAt := by
  unfold fetchSessionByCreatedAt at h
  have hperm := List.perm_insertionSort
    (fun a b : Session2 => b.createdAt ≤ a.createdAt) sessions2
  have hmem : s2 ∈ sessions2 := by
    apply hperm.subset
    cases hl : sessions2.insertionSort
        (fun a b : Session2 => b.createdAt ≤ a.createdAt) with
    | nil => rw [hl] at h; cases h
    | cons b t =>
      rw [hl] at h
      have hb : b = s2 := by simpa using h
      subst hb
      exact List.mem_cons_self b t
  refine ⟨hmem, ?_⟩
  intro x hx
  have hs := List.sorted_insertionSort
    (fun a b : Session2 => b.createdAt ≤ a.createdAt) sessions2
  exact pairwise_head_rel (r := fun a b : Session2 => b.createdAt ≤ a.createdAt)
    (fun z => le_refl z.createdAt) hs h x (hperm.symm.subset hx)

/-- C2 (amended): in `calculateSessionAttendance` of alexa.js the selected
session takes precedence even over an explicitly given session name; the
explicit name is consulted (matched by case-insensitive name or exact
code) only when the selected session yielded no window, and a failed
lookup silently falls back to the current calendar year instead of
failing; in part_002, `getSessionWindow` (which receives no explicit
name) falls back from the selected meta to the newest-created session,
then to the window spanning the earliest to the latest recorded day, then
to `[today, today]`. -/
theorem c2_session_resolution_amended
    (sessions : List Session) (s : Session) (nm : String) (today : YMD)
    (currentYear : Nat) (st en : YMD) (sessions2 : List Session2)
    (s2 : Session2) (dayIds : List YMD) :
    (sessions.find? (fun x => x.isSelected) = some s →
      s.startDate = some st →
      resolveSessionWindow sessions (some nm) today currentYear
        = ⟨some st, some (s.endDate.getD today),
           if s.name = "" then "current session" else s.name⟩)
    ∧ (sessions.find? (fun x => x.isSelected) = none →
        sessions.find? (fun x =>
          lowerStr x.name = lowerStr nm || x.code = nm) = some s →
        s.startDate = some st → s.endDate = some en →
        resolveSessionWindow sessions (some nm) today currentYear
          = ⟨some st, some en, s.name⟩)
    ∧ (sessions.find? (fun x => x.isSelected) = none →
        sessions.find? (fun x =>
          lowerStr x.name = lowerStr nm || x.code = nm) = none →
        resolveSessionWindow sessions (some nm) today currentYear
          = ⟨some (yearStart currentYear), some (yearEnd currentYear),
             "current year"⟩)
    ∧ (fetchSessionByCreatedAt sessions2 none = some s2 →
        s2.startDate = some st →
        getSessionWindow none sessions2 dayIds today
            = (st, s2.endDate.getD today)
          ∧ s2 ∈ sessions2 ∧ ∀ x ∈ sessions2, x.createdAt ≤ s2.createdAt)
    ∧ (dayIds ≠ [] →
        ∃ e la, getSessionWindow none [] dayIds today = (e, la)
          ∧ e ∈ dayIds ∧ (∀ d ∈ dayIds, ymdLe e d = true)
          ∧ la ∈ dayIds ∧ (∀ d ∈ dayIds, ymdLe d la = true))
    ∧ getSessionWindow none [] [] today = (today, today) := by
  refine ⟨?_, ?_, ?_, ?_, ?_, ?_⟩
  · intro hf hst
    unfold resolveSessionWindow
    rw [hf]
    simp [hst]
  · intro h1 h2 hst hen
    unfold resolveSessionWindow
    rw [h1]
    simp [h2, hst, hen]
  · intro h1 h2
    unfold resolveSessionWindow
    rw [h1]
    simp [h2]
  · intro hf hst
    refine ⟨?_, fetch_none_newest sessions2 s2 hf⟩
    unfold getSessionWindow
    simp [hf, hst]
  · intro hne
    obtain ⟨e, la, hinf, hprops⟩ := inferSession_spec dayIds today hne
    refine ⟨e, la, ?_, hprops⟩
    unfold getSessionWindow
    simp [fetchSessionByCreatedAt, hinf]
  · rfl

/-- Closed instance of `c2_session_resolution_amended`: the selected
session wins over an explicit name, the empty registry falls back to the
current year, two day records are spanned earliest-to-latest, and the
empty state yields `[today, today]`. -/
theorem c2_session_resolution_amended_witness :
    ([(⟨"Summer", "summcode", some ⟨2024, 4, 1⟩, some ⟨2024, 6, 30⟩, 1, true⟩
        : Session)].find? (fun x => x.isSelected)
      = some ⟨"Summer", "summcode", some ⟨2024, 4, 1⟩, some ⟨2024, 6, 30⟩, 1, true⟩)
    ∧ resolveSessionWindow
        [⟨"Summer", "summcode", some ⟨2024, 4, 1⟩, some ⟨2024, 6, 30⟩, 1, true⟩]
        (some "Winter") ⟨2024, 6, 4⟩ 2024
      = ⟨some ⟨2024, 4, 1⟩, some ⟨2024, 6, 30⟩, "Summer"⟩
    ∧ resolveSessionWindow [] (some "winter") ⟨2024, 6, 4⟩ 2024
      = ⟨some (yearStart 2024), some (yearEnd 2024), "current year"⟩
    ∧ (∃ e la, getSessionWindow none [] [⟨2024, 6, 10⟩, ⟨2024, 5, 2⟩]
          ⟨2024, 6, 15⟩ = (e, la)
        ∧ e ∈ [(⟨2024, 6, 10⟩ : YMD), ⟨2024, 5, 2⟩]
        ∧ (∀ d ∈ [(⟨2024, 6, 10⟩ : YMD), ⟨2024, 5, 2⟩], ymdLe e d = true)
        ∧ la ∈ [(⟨2024, 6, 10⟩ : YMD), ⟨2024, 5, 2⟩]
        ∧ (∀ d ∈ [(⟨2024, 6, 10⟩ : YMD), ⟨2024, 5, 2⟩], ymdLe d la = true))
    ∧ getSessionWindow none [] [] ⟨2024, 6, 15⟩ = (⟨2024, 6, 15⟩, ⟨2024, 6, 15⟩) :=
  ⟨by decide,
   (c2_session_resolution_amended
     [⟨"Summer", "summcode", some ⟨2024, 4, 1⟩, some ⟨2024, 6, 30⟩, 1, true⟩]
     ⟨"Summer", "summcode", some ⟨2024, 4, 1⟩, some ⟨2024, 6, 30⟩, 1, true⟩
     "Winter" ⟨2024, 6, 4⟩ 2024 ⟨2024, 4, 1⟩ ⟨2024, 4, 1⟩ [] ⟨"", "", none, none, 0⟩
     []).1 (by decide) rfl,
   (c2_session_resolution_amended [] ⟨"", "", none, none, 0, false⟩ "winter"
     ⟨2024, 6, 4⟩ 2024 ⟨2024, 1, 1⟩ ⟨2024, 1, 1⟩ [] ⟨"", "", none, none, 0⟩
     []).2.2.1 rfl rfl,
   (c2_session_resolution_amended [] ⟨"", "", none, none, 0, false⟩ "x"
     ⟨2024, 6, 15⟩ 2024 ⟨2024, 1, 1⟩ ⟨2024, 1, 1⟩ [] ⟨"", "", none, none, 0⟩
     [⟨2024, 6, 10⟩, ⟨2024, 5, 2⟩]).2.2.2.2.1 (by decide),
   (c2_session_resolution_amended [] ⟨"", "", none, none, 0, false⟩ "x"
     ⟨2024, 6, 15⟩ 2024 ⟨2024, 1, 1⟩ ⟨2024, 1, 1⟩ [] ⟨"", "", none, none, 0⟩
     []).2.2.2.2.2⟩
